import Mathlib

/-!
# Verification of the IPL question-answering agent

A shallow embedding, in Lean 4, of the core of the IPL cricket
question-answering program: the name normalizer and resolver
(`resolver.py`), the intent router (`router.py`), and the aggregation
engine (`query.py`).  Python strings are modelled as Lean `String`
(lists of unicode code points); the `pandas`/`duckdb` tables are
modelled as Lean lists of records; SQL aggregation queries are modelled
as executable Lean functions over those lists.  DuckDB `DOUBLE`
arithmetic is modelled exactly over the integers: every displayed rate
is stored as an integer number of *hundredths* (the SQL code rounds all
rates to two decimals with `ROUND(x, 2)`, and Python's `round(x, 2)`
likewise), and order comparisons of unrounded ratios are performed by
cross-multiplication.  SQL `NULL` / Python `None` are modelled by
`Option`.  The external fuzzy-matching library (rapidfuzz) is modelled
as an abstract function parameter, following the design note of the
specification that string similarity sits behind a narrow interface.
-/

namespace IPLAgent

/-! ## Character-level utilities

Python string primitives used by `resolver.py` and `router.py`:
`str.lower`/`str.upper`/`str.title`, the regex classes `\s` and `\w`,
and `str.strip`.  Case mapping is modelled as ASCII simple casing
(the data the program manipulates is ASCII; Python's full Unicode
case mapping agrees with it there and is likewise idempotent). -/

/-- The non-breaking-space character `\xa0` replaced by `norm`. -/
def nbspChar : Char := Char.ofNat 160

/-- The zero-width-joiner character `‍` stripped by `norm`. -/
def zwjChar : Char := Char.ofNat 0x200D

/-- Python's whitespace class (`\s` in `re`, and the default set of
`str.strip`): ASCII whitespace, the C1 separators, and the Unicode
space separators. -/
def isPySpace (c : Char) : Bool :=
  let n := c.toNat
  n = 32 || (9 ≤ n && n ≤ 13) || (28 ≤ n && n ≤ 31) || n = 133 || n = 160 ||
  n = 0x1680 || (0x2000 ≤ n && n ≤ 0x200A) || n = 0x2028 || n = 0x2029 ||
  n = 0x202F || n = 0x205F || n = 0x3000

/-- ASCII lower-case mapping (model of Python `str.lower`). -/
def pyLower (c : Char) : Char :=
  if 65 ≤ c.toNat && c.toNat ≤ 90 then Char.ofNat (c.toNat + 32) else c

/-- ASCII upper-case mapping (model of Python `str.upper`). -/
def pyUpper (c : Char) : Char :=
  if 97 ≤ c.toNat && c.toNat ≤ 122 then Char.ofNat (c.toNat - 32) else c

/-- ASCII letter test. -/
def isAsciiAlpha (c : Char) : Bool :=
  (65 ≤ c.toNat && c.toNat ≤ 90) || (97 ≤ c.toNat && c.toNat ≤ 122)

/-- ASCII digit test. -/
def isAsciiDigit (c : Char) : Bool :=
  48 ≤ c.toNat && c.toNat ≤ 57

/-- The regex word class `\w` (ASCII model): letters, digits, underscore. -/
def isWordChar (c : Char) : Bool :=
  isAsciiAlpha c || isAsciiDigit c || c = '_'

/-- Replace every maximal run of whitespace by a single `' '`
(model of `re.sub(r"\s+", " ", s)`).  The boolean flag records whether
the previous character was whitespace (whose run has already emitted
its single space). -/
def collapseAux : Bool → List Char → List Char
  | _, [] => []
  | true, c :: cs =>
    if isPySpace c then collapseAux true cs else c :: collapseAux false cs
  | false, c :: cs =>
    if isPySpace c then ' ' :: collapseAux true cs else c :: collapseAux false cs

/-- Model of `re.sub(r"\s+", " ", s)`. -/
def collapseWs (l : List Char) : List Char := collapseAux false l

/-- Model of Python `str.lstrip()`. -/
def trimStart (l : List Char) : List Char := l.dropWhile (isPySpace ·)

/-- Model of Python `str.rstrip()`. -/
def trimEnd (l : List Char) : List Char :=
  (l.reverse.dropWhile (isPySpace ·)).reverse

/-- Model of Python `str.strip()`. -/
def trimWs (l : List Char) : List Char := trimEnd (trimStart l)

/-- `resolver.norm` on the underlying character list: replace `\xa0`
by a space, replace `.`/`‍`/`-` by a space, collapse whitespace
runs to single spaces, strip, lower-case — in the source's order. -/
def normList (l : List Char) : List Char :=
  let s1 := l.map (fun c => if c = nbspChar then ' ' else c)
  let s2 := s1.map (fun c => if c = '.' || c = zwjChar || c = '-' then ' ' else c)
  (trimWs (collapseWs s2)).map pyLower

/-- `resolver.norm`: normalize whitespace, punctuation and case
(`None` input, mapped to `""` by the source, is modelled by `""`). -/
def norm (s : String) : String := String.mk (normList s.toList)

/-- Split a character list on whitespace runs, dropping empty pieces
(model of Python `str.split()` with no argument). -/
def splitWsAux (cur : List Char) : List Char → List (List Char)
  | [] => if cur.isEmpty then [] else [cur.reverse]
  | c :: cs =>
    if isPySpace c then
      if cur.isEmpty then splitWsAux [] cs else cur.reverse :: splitWsAux [] cs
    else splitWsAux (c :: cur) cs

/-- Model of Python `str.split()` (split on whitespace, no empties). -/
def splitWs (l : List Char) : List (List Char) := splitWsAux [] l

/-- `resolver.initials_key`: replace every character outside
`[a-zA-Z ]` by a space, strip, split on whitespace; no token → `""`;
one token → that token lower-cased; otherwise the lower-cased first
letters of all tokens but the last, then a space, then the lower-cased
last token ("Rohit Gurunath Sharma" → "rg sharma"). -/
def initials_key (s : String) : String :=
  let cleaned := s.toList.map (fun c => if isAsciiAlpha c || c = ' ' then c else ' ')
  let parts := splitWs (trimWs cleaned)
  match parts with
  | [] => ""
  | [p] => String.mk (p.map pyLower)
  | _ =>
    let lastTok := (parts.getLast?).getD []
    let firsts := (parts.dropLast).map (fun p => pyLower ((p.headD ' ')))
    String.mk (firsts ++ (' ' :: lastTok.map pyLower))

/-! ## Order-by machinery

SQL `ORDER BY k1, k2, ...` clauses are modelled by `Ordering`-valued
comparators combined lexicographically with `Ordering.then`, and
`List.mergeSort` on the induced boolean `≤`.  All comparators below
compute with plain natural-number arithmetic (ratio comparisons by
cross-multiplication) so that concrete instances evaluate by `decide`.
`LawCmpOn P c` packages the properties (antisymmetry under `swap` and
transitivity laws) needed for `mergeSort` to sort, restricted to
values satisfying the invariant `P`. -/

/-- Three-way comparison of naturals (ascending). -/
def natCmp (a b : ℕ) : Ordering :=
  if a < b then .lt else if a = b then .eq else .gt

/-- Three-way comparison of naturals, descending. -/
def natCmpDesc (a b : ℕ) : Ordering := natCmp b a

/-- `NULLS LAST` lift of a comparator to `Option` (SQL `ASC NULLS
LAST` / `DESC NULLS LAST` keys, with `NULL` modelled by `none`). -/
def optCmpNL (c : α → α → Ordering) : Option α → Option α → Ordering
  | none, none => .eq
  | none, some _ => .gt
  | some _, none => .lt
  | some a, some b => c a b

/-- Compare two ratios `a.1 / a.2` and `b.1 / b.2` of naturals by
cross-multiplication (the denominators produced by the embedding are
always positive; `NULL` ratios are handled by `optCmpNL`). -/
def fracCmp (a b : ℕ × ℕ) : Ordering := natCmp (a.1 * b.2) (b.1 * a.2)

/-- Descending ratio comparison by cross-multiplication. -/
def fracCmpDesc (a b : ℕ × ℕ) : Ordering := fracCmp b a

/-- Three-way comparison of character lists in codepoint
lexicographic order (model of SQL `ORDER BY` on `VARCHAR` and of
Python string comparison; the names in the data are ASCII, where
codepoint order and collation agree). -/
def charsCmp : List Char → List Char → Ordering
  | [], [] => .eq
  | [], _ :: _ => .lt
  | _ :: _, [] => .gt
  | a :: as, b :: bs => (natCmp a.toNat b.toNat).then (charsCmp as bs)

/-- String comparison via `charsCmp`. -/
def strCmp (s t : String) : Ordering := charsCmp s.toList t.toList

/-- The lawfulness properties a comparator needs for sorting, relative
to an invariant `P` satisfied by all values actually compared:
antisymmetry via `swap`, transitivity of `.lt`, and substitutivity of
`.eq` on either side. -/
def LawCmpOn (P : α → Prop) (c : α → α → Ordering) : Prop :=
  (∀ x y, P x → P y → c x y = (c y x).swap) ∧
  (∀ x y z, P x → P y → P z → c x y = .lt → c y z = .lt → c x z = .lt) ∧
  (∀ x y z, P x → P y → P z → c x y = .eq → c y z = c x z) ∧
  (∀ x y z, P x → P y → P z → c y z = .eq → c x y = c x z)

/-- Lawfulness with no invariant. -/
def LawCmp (c : α → α → Ordering) : Prop := LawCmpOn (fun _ => True) c

/-- Insert `a` before the first element it compares `≤` to
(insertion-sort step). -/
def insertLe (le : α → α → Bool) (a : α) : List α → List α
  | [] => [a]
  | b :: t => if le a b then a :: b :: t else b :: insertLe le a t

/-- Stable insertion sort by a boolean `≤`. -/
def insSort (le : α → α → Bool) : List α → List α
  | [] => []
  | a :: t => insertLe le a (insSort le t)

/-- Sort a list by an `Ordering`-valued comparator (model of SQL
`ORDER BY`; the sort is stable, matching row order up to the freedom
SQL leaves for ties). -/
def sortByCmp (c : α → α → Ordering) (l : List α) : List α :=
  insSort (fun x y => (c x y).isLE) l

/-- Does `pre` begin the list `l`? -/
def startsWithSeq : List Char → List Char → Bool
  | [], _ => true
  | _ :: _, [] => false
  | a :: as, b :: bs => a = b && startsWithSeq as bs

/-- Does `pat` occur as a contiguous subsequence of `l`? -/
def containsSeq (pat : List Char) : List Char → Bool
  | [] => pat.isEmpty
  | c :: cs => startsWithSeq pat (c :: cs) || containsSeq pat cs

/-- Is `pat` a substring of `s` (Python `s.find(pat) >= 0` / SQL
`LIKE '%pat%'`)? -/
def strContains (s pat : String) : Bool := containsSeq pat.toList s.toList

/-! ## Data model

One record per ball bowled (`deliveries`) and one per match
(`matches_meta`), mirroring the DuckDB schema declared in `ingest.py`.
Only the columns the modelled queries read are carried: `ball`,
`over`, `ball_number`, `over_ball`, `start_date`, `venue`,
`non_striker`, the separate bye/leg-bye/penalty extras,
`other_wicket_type`, `other_player_dismissed`, `is_boundary` and
`is_dot` never appear in the queries under verification.  Nullable
columns are `Option`; dates are modelled as `Option ℕ` in any
order-preserving encoding (e.g. days since an epoch). -/

structure Delivery where
  match_id : ℕ
  season : String
  innings : ℕ
  batting_team : String
  bowling_team : String
  striker : String
  bowler : String
  runs_batter : ℕ
  runs_total : ℕ
  wides : Option ℕ
  noballs : Option ℕ
  wicket_type : Option String
  dismissal_kind : Option String
  player_dismissed : Option String
  phase : String
  deriving DecidableEq, Repr

structure MatchMeta where
  match_id : ℕ
  season : String
  date : Option ℕ
  venue : String
  team1 : String
  team2 : String
  winner : Option String
  player_of_match : Option String
  deriving DecidableEq, Repr

/-! ## Shared aggregation helpers (`query.py`) -/

/-- A legal delivery: `COALESCE(wides,0) > 0 OR COALESCE(noballs,0) > 0`
is the *illegal* case; the SQL pattern
`SUM(CASE WHEN ... THEN 0 ELSE 1 END)` counts the legal ones. -/
def isLegal (d : Delivery) : Bool :=
  !(0 < d.wides.getD 0 || 0 < d.noballs.getD 0)

/-- `SUM(CASE WHEN COALESCE(wides,0)>0 OR COALESCE(noballs,0)>0 THEN 0
ELSE 1 END)`: the number of legal balls among the rows. -/
def legalBalls (ds : List Delivery) : ℕ := (ds.filter isLegal).length

/-- `COUNT(CASE WHEN player_dismissed IS NOT NULL THEN 1 END)`: the
wicket count used by `match_summary` (innings totals and top bowlers),
`player_stats` and `best_phase_bowlers` — every delivery with a
non-null dismissed-player marker, run-outs included. -/
def countDismissed (ds : List Delivery) : ℕ :=
  (ds.filter (·.player_dismissed.isSome)).length

/-- `LOWER(COALESCE(dismissal_kind, wicket_type, '')) LIKE '%run out%'`:
the run-out test of the `head_to_head` bowling star. -/
def isRunOutKind (d : Delivery) : Bool :=
  strContains (String.mk (((d.dismissal_kind.getD (d.wicket_type.getD "")).toList).map pyLower))
    "run out"

/-- The wicket count of the `head_to_head` bowling star
(`bowl_sql`): non-null dismissals whose kind does *not* contain
"run out". -/
def wicketsNoRunOut (ds : List Delivery) : ℕ :=
  (ds.filter (fun d => d.player_dismissed.isSome && !isRunOutKind d)).length

/-- Dismissals whose kind contains "run out". -/
def runOutDismissals (ds : List Delivery) : ℕ :=
  (ds.filter (fun d => d.player_dismissed.isSome && isRunOutKind d)).length

/-- Sum of `runs_total` over the rows. -/
def sumRunsTotal (ds : List Delivery) : ℕ := (ds.map (·.runs_total)).sum

/-- Sum of `runs_batter` over the rows. -/
def sumRunsBatter (ds : List Delivery) : ℕ := (ds.map (·.runs_batter)).sum

/-- SQL `ROUND(num/den, 2)` for non-negative arguments, returned as an
integer count of hundredths: `⌊100·num/den + 1/2⌋` (DuckDB rounds half
away from zero, which for non-negative values is half-up).  Callers
guarantee `den ≠ 0` (`NULLIF` null results are handled by `Option`). -/
def roundHU100 (num den : ℕ) : ℕ := (200 * num + den) / (2 * den)

/-- Python `round(num/den, 2)` for non-negative arguments, as
hundredths: banker's rounding (round half to even). -/
def roundHE100 (num den : ℕ) : ℕ :=
  let p := 100 * num
  let q := p / den
  let r := p % den
  if 2 * r < den then q
  else if den < 2 * r then q + 1
  else if q % 2 = 0 then q else q + 1

/-- `query.safe_div(n, d, scale)` with the scaling already applied to
the numerator: `None` on a zero denominator, otherwise the ratio
rounded to two decimals (Python `round`), in hundredths. -/
def safe_div100 (n d : ℕ) : Option ℕ :=
  if d = 0 then none else some (roundHE100 n d)

/-- SQL `ROUND((num * 1.0) / NULLIF(den, 0), 2)` in hundredths. -/
def sqlRound100 (num den : ℕ) : Option ℕ :=
  if den = 0 then none else some (roundHU100 num den)

/-- Distinct values of `f` over a list (SQL `DISTINCT` / pandas
`nunique`; the order of the keys is irrelevant — every consumer
re-sorts). -/
def distinctsBy [DecidableEq κ] (f : α → κ) (l : List α) : List κ :=
  (l.map f).dedup

/-- Number of distinct values of `f` over a list. -/
def countDistinct [DecidableEq κ] (f : α → κ) (l : List α) : ℕ :=
  (distinctsBy f l).length

/-! ## `query.match_summary`

Rich match summary for the nth meeting of two teams in a season. -/

/-- The `WHERE` clause of the meta query: same season and the two
teams in either `team1`/`team2` order. -/
def meetingFilter (team_a team_b season : String) (m : MatchMeta) : Bool :=
  m.season = season &&
    ((m.team1 = team_a && m.team2 = team_b) || (m.team1 = team_b && m.team2 = team_a))

/-- `ORDER BY date NULLS LAST, match_id` on `matches_meta` rows. -/
def metaCmp (x y : MatchMeta) : Ordering :=
  (optCmpNL natCmp x.date y.date).then (natCmp x.match_id y.match_id)

/-- All meetings of the two teams in the season, chronological
(date `NULLS LAST`, then match id). -/
def meetingsSorted (metas : List MatchMeta) (team_a team_b season : String) :
    List MatchMeta :=
  sortByCmp metaCmp (metas.filter (meetingFilter team_a team_b season))

/-- The meta row `match_summary` summarises: the query `LIMIT nth`
keeps the first `nth` sorted meetings and the code then takes
`meta.iloc[-1]`, the *last* of those; `none` iff there are no
meetings at all. -/
def pickNthMeeting (metas : List MatchMeta) (team_a team_b season : String)
    (nth : ℕ) : Option MatchMeta :=
  ((meetingsSorted metas team_a team_b season).take nth).getLast?

/-- One row of the innings summary. -/
structure InningsRow where
  innings : ℕ
  batting_team : String
  runs : ℕ
  wickets : ℕ
  legal_balls : ℕ
  run_rate : Option ℕ
  deriving DecidableEq, Repr

/-- The innings aggregate for one group of deliveries (`runs`,
`wickets` as `countDismissed`, legal balls, run rate
`ROUND(runs*6.0/NULLIF(legal_balls,0), 2)`).  The `overs_str` display
column (`legal_balls/6 || '.' || legal_balls%6`) is presentation only
and is not carried. -/
def inningsRowOf (key : ℕ × String) (ds : List Delivery) : InningsRow :=
  let g := ds.filter (fun d => d.innings = key.1 && d.batting_team = key.2)
  { innings := key.1
    batting_team := key.2
    runs := sumRunsTotal g
    wickets := countDismissed g
    legal_balls := legalBalls g
    run_rate := sqlRound100 (6 * sumRunsTotal g) (legalBalls g) }

/-- Innings summary of a match: group by `(innings, batting_team)`,
`ORDER BY innings` (ties beyond `innings` are left in the stable
first-appearance order; the SQL leaves them unspecified). -/
def inningsSummary (ds : List Delivery) : List InningsRow :=
  (sortByCmp (fun (a b : ℕ × String) => natCmp a.1 b.1)
      (distinctsBy (fun d => (d.innings, d.batting_team)) ds)).map
    (fun k => inningsRowOf k ds)

/-- One row of the top-batters table. -/
structure TopBatterRow where
  innings : ℕ
  batter : String
  runs : ℕ
  balls : ℕ
  fours : ℕ
  sixes : ℕ
  strike_rate : Option ℕ
  deriving DecidableEq, Repr

/-- The per-innings batter aggregate of `match_summary` (balls faced
counted as legal balls here). -/
def topBatterRowOf (key : ℕ × String) (ds : List Delivery) : TopBatterRow :=
  let g := ds.filter (fun d => d.innings = key.1 && d.striker = key.2)
  { innings := key.1
    batter := key.2
    runs := sumRunsBatter g
    balls := legalBalls g
    fours := (g.filter (·.runs_batter = 4)).length
    sixes := (g.filter (·.runs_batter = 6)).length
    strike_rate := sqlRound100 (100 * sumRunsBatter g) (legalBalls g) }

/-- `ORDER BY runs DESC, strike_rate DESC NULLS LAST, balls ASC,
batter ASC` within an innings partition. -/
def topBatterCmp (x y : TopBatterRow) : Ordering :=
  ((natCmpDesc x.runs y.runs).then
    (optCmpNL natCmpDesc x.strike_rate y.strike_rate)).then
    ((natCmp x.balls y.balls).then (strCmp x.batter y.batter))

/-- Top two batters per innings, innings in ascending order
(`ROW_NUMBER() OVER (PARTITION BY innings ORDER BY ...)`, `rk <= 2`,
final `ORDER BY innings, rk`). -/
def topBatters (ds : List Delivery) : List TopBatterRow :=
  (sortByCmp natCmp (distinctsBy (·.innings) ds)).flatMap
    (fun i =>
      (sortByCmp topBatterCmp
        ((distinctsBy (fun d => (d.innings, d.striker)) ds).filter (·.1 = i)
          |>.map (fun k => topBatterRowOf k ds))).take 2)

/-- One row of the top-bowlers table. -/
structure TopBowlerRow where
  innings : ℕ
  bowler : String
  wickets : ℕ
  runs_conceded : ℕ
  legal_balls : ℕ
  economy : Option ℕ
  deriving DecidableEq, Repr

/-- The per-innings bowler aggregate of `match_summary`; `wickets` is
`countDismissed` (run-outs included). -/
def topBowlerRowOf (key : ℕ × String) (ds : List Delivery) : TopBowlerRow :=
  let g := ds.filter (fun d => d.innings = key.1 && d.bowler = key.2)
  { innings := key.1
    bowler := key.2
    wickets := countDismissed g
    runs_conceded := sumRunsTotal g
    legal_balls := legalBalls g
    economy := sqlRound100 (6 * sumRunsTotal g) (legalBalls g) }

/-- `ORDER BY wickets DESC, economy ASC NULLS LAST, runs_conceded ASC,
bowler ASC` within an innings partition. -/
def topBowlerCmp (x y : TopBowlerRow) : Ordering :=
  ((natCmpDesc x.wickets y.wickets).then
    (optCmpNL natCmp x.economy y.economy)).then
    ((natCmp x.runs_conceded y.runs_conceded).then (strCmp x.bowler y.bowler))

/-- Top two bowlers per innings, innings ascending. -/
def topBowlers (ds : List Delivery) : List TopBowlerRow :=
  (sortByCmp natCmp (distinctsBy (·.innings) ds)).flatMap
    (fun i =>
      (sortByCmp topBowlerCmp
        ((distinctsBy (fun d => (d.innings, d.bowler)) ds).filter (·.1 = i)
          |>.map (fun k => topBowlerRowOf k ds))).take 2)

/-- The success payload of `match_summary`. -/
structure MatchSummary where
  meta : MatchMeta
  innings : List InningsRow
  top_batters : List TopBatterRow
  top_bowlers : List TopBowlerRow
  deriving DecidableEq, Repr

/-- `query.match_summary`: pick the match via `pickNthMeeting`; error
iff no meeting of the two teams exists in the season; otherwise
aggregate the picked match's deliveries. -/
def match_summary (metas : List MatchMeta) (ds : List Delivery)
    (team_a team_b season : String) (nth : ℕ) : Except String MatchSummary :=
  match pickNthMeeting metas team_a team_b season nth with
  | none =>
    .error ("No match found between " ++ team_a ++ " and " ++ team_b ++ " in " ++ season)
  | some m =>
    let mds := ds.filter (·.match_id = m.match_id)
    .ok { meta := m
          innings := inningsSummary mds
          top_batters := topBatters mds
          top_bowlers := topBowlers mds }

/-! ## `query.player_stats`

Career/season batting and bowling aggregates plus matchup analysis.
The base data frame `df` is season-filtered when `scope == "season"`
and a season is supplied; the matchup queries, the team list and the
last-team query re-query the full `deliveries` table. -/

/-- The base `WHERE` clause of `player_stats`: the player batted or
bowled the ball, plus the season restriction when `scope == "season"`
and a season was supplied (`None` or `""` is falsy in Python and adds
no restriction). -/
def playerStatsFilter (player scope : String) (season : Option String)
    (d : Delivery) : Bool :=
  (d.striker = player || d.bowler = player) &&
    (match season with
     | some s => if scope = "season" && s ≠ "" then d.season = s else true
     | none => true)

/-- The batting half of `player_stats`: `balls` is `len(bat_df)` —
every delivery faced, with no legality restriction; `dismissals`
counts every non-null dismissed-player marker among them; `matches`
counts distinct matches of the whole base frame `df` (batting *or*
bowling). -/
structure BattingAgg where
  matchesPlayed : ℕ
  inns : ℕ
  runs : ℕ
  balls : ℕ
  fours : ℕ
  sixes : ℕ
  sr : Option ℕ
  average : Option ℕ
  deriving DecidableEq, Repr

/-- Build the batting aggregate from the base frame `df`. -/
def battingAggOf (df : List Delivery) (player : String) : BattingAgg :=
  let bat_df := df.filter (·.striker = player)
  let runs := sumRunsBatter bat_df
  let balls := bat_df.length
  let dismissals := countDismissed bat_df
  { matchesPlayed := countDistinct (·.match_id) df
    inns := countDistinct (·.innings) bat_df
    runs := runs
    balls := balls
    fours := (bat_df.filter (·.runs_batter = 4)).length
    sixes := (bat_df.filter (·.runs_batter = 6)).length
    sr := safe_div100 (runs * 100) balls
    average := safe_div100 runs dismissals }

/-- The bowling half of `player_stats`: `balls_bowled` is
`len(bowl_df)` — every delivery bowled; `overs` is
`safe_div(balls_bowled, 6.0)`; `economy` is
`safe_div(runs_conceded, balls_bowled/6.0)` (null iff no ball
bowled); `wickets` counts every non-null dismissal marker. -/
structure BowlingAgg where
  matchesPlayed : ℕ
  overs : Option ℕ
  wickets : ℕ
  runs_conceded : ℕ
  economy : Option ℕ
  deriving DecidableEq, Repr

/-- Build the bowling aggregate from the base frame `df`. -/
def bowlingAggOf (df : List Delivery) (player : String) : BowlingAgg :=
  let bowl_df := df.filter (·.bowler = player)
  let balls_bowled := bowl_df.length
  let runs_conceded := sumRunsTotal bowl_df
  { matchesPlayed := countDistinct (·.match_id) bowl_df
    overs := safe_div100 balls_bowled 6
    wickets := countDismissed bowl_df
    runs_conceded := runs_conceded
    economy := safe_div100 (runs_conceded * 6) balls_bowled }

/-- A batting-side matchup row (nemesis bowler / bunny batter shape):
opponent name, dismissals, legal balls contested, rounded economy. -/
structure MatchupOutsRow where
  name : String
  outs : ℕ
  balls : ℕ
  economy_against : Option ℕ
  deriving DecidableEq, Repr

/-- An economy-only matchup row (favourite bowler / worst-vs batter
shape). -/
structure MatchupEconRow where
  name : String
  balls : ℕ
  economy : Option ℕ
  deriving DecidableEq, Repr

/-- Nemesis bowler: over *all* deliveries the player faced
(no season restriction), group by bowler; `outs` counts deliveries on
which `player_dismissed` equals the player; keep groups with
`outs > 0`; `ORDER BY outs DESC, econ_vs ASC NULLS LAST, bowler ASC
LIMIT 1`. -/
def nemesisBowler (ds : List Delivery) (player : String) : Option MatchupOutsRow :=
  let faced := ds.filter (·.striker = player)
  let rows := (distinctsBy (·.bowler) faced).map (fun b =>
    let g := faced.filter (·.bowler = b)
    ({ name := b
       outs := (g.filter (·.player_dismissed = some player)).length
       balls := legalBalls g
       economy_against := sqlRound100 (6 * sumRunsTotal g) (legalBalls g) } : MatchupOutsRow))
  (sortByCmp
    (fun x y => ((natCmpDesc x.outs y.outs).then
      (optCmpNL natCmp x.economy_against y.economy_against)).then
      (strCmp x.name y.name))
    (rows.filter (0 < ·.outs))).head?

/-- Favourite bowler: highest rounded economy conceded to the player
among bowlers who bowled at least 60 legal balls to them
(`ORDER BY economy DESC, bowler ASC LIMIT 1`; the economy of a
qualifying group is never null since 60 ≤ legal balls). -/
def favouriteBowler (ds : List Delivery) (player : String) : Option MatchupEconRow :=
  let faced := ds.filter (·.striker = player)
  let rows := (distinctsBy (·.bowler) faced).map (fun b =>
    let g := faced.filter (·.bowler = b)
    ({ name := b
       balls := legalBalls g
       economy := sqlRound100 (6 * sumRunsTotal g) (legalBalls g) } : MatchupEconRow))
  (sortByCmp
    (fun x y => (optCmpNL natCmpDesc x.economy y.economy).then (strCmp x.name y.name))
    (rows.filter (60 ≤ ·.balls))).head?

/-- Bunny batter (most dismissed by this bowler): over all deliveries
the player bowled, group by striker; `outs` counts deliveries where
`player_dismissed` equals the *striker* of the row; `outs > 0`;
`ORDER BY outs DESC, econ_vs ASC NULLS LAST, batter ASC LIMIT 1`. -/
def mostDismissedBatter (ds : List Delivery) (player : String) : Option MatchupOutsRow :=
  let bowled := ds.filter (·.bowler = player)
  let rows := (distinctsBy (·.striker) bowled).map (fun b =>
    let g := bowled.filter (·.striker = b)
    ({ name := b
       outs := (g.filter (fun d => d.player_dismissed = some d.striker)).length
       balls := legalBalls g
       economy_against := sqlRound100 (6 * sumRunsTotal g) (legalBalls g) } : MatchupOutsRow))
  (sortByCmp
    (fun x y => ((natCmpDesc x.outs y.outs).then
      (optCmpNL natCmp x.economy_against y.economy_against)).then
      (strCmp x.name y.name))
    (rows.filter (0 < ·.outs))).head?

/-- Worst economy conceded to a single batter (min 60 legal balls
bowled to them), `ORDER BY economy DESC, batter ASC LIMIT 1`. -/
def worstVsBatter (ds : List Delivery) (player : String) : Option MatchupEconRow :=
  let bowled := ds.filter (·.bowler = player)
  let rows := (distinctsBy (·.striker) bowled).map (fun b =>
    let g := bowled.filter (·.striker = b)
    ({ name := b
       balls := legalBalls g
       economy := sqlRound100 (6 * sumRunsTotal g) (legalBalls g) } : MatchupEconRow))
  (sortByCmp
    (fun x y => (optCmpNL natCmpDesc x.economy y.economy).then (strCmp x.name y.name))
    (rows.filter (60 ≤ ·.balls))).head?

/-- The four matchup sub-results of `player_stats`. -/
structure Matchups where
  nemesis_bowler : Option MatchupOutsRow
  favourite_bowler : Option MatchupEconRow
  most_dismissed_batter : Option MatchupOutsRow
  worst_vs_batter : Option MatchupEconRow
  deriving DecidableEq, Repr

/-- All four matchups, computed from the full delivery log. -/
def matchupsOf (ds : List Delivery) (player : String) : Matchups :=
  { nemesis_bowler := nemesisBowler ds player
    favourite_bowler := favouriteBowler ds player
    most_dismissed_batter := mostDismissedBatter ds player
    worst_vs_batter := worstVsBatter ds player }

/-- The last-team row of `player_stats`. -/
structure LastTeam where
  team : String
  match_id : Option ℕ
  date : Option ℕ
  deriving DecidableEq, Repr

/-- Teams the player ever represented: batting teams when striking
plus bowling teams when bowling, distinct, sorted ascending (the SQL
`ORDER BY team` and the Python `sorted` coincide). -/
def teamsOf (ds : List Delivery) (player : String) : List String :=
  sortByCmp strCmp
    (((ds.filter (·.striker = player)).map (·.batting_team) ++
      (ds.filter (·.bowler = player)).map (·.bowling_team)).dedup)

/-- Most recent team: every qualifying delivery joined (inner) with
its match's meta row for the date, ranked by `date DESC NULLS LAST,
match_id DESC`; rows of one match share a key, and the CASE expression
gives the same team for all of them, so the stable first pick is
faithful. -/
def lastTeamOf (ds : List Delivery) (metas : List MatchMeta) (player : String) :
    Option LastTeam :=
  let rows := (ds.filter (fun d => d.striker = player || d.bowler = player)).filterMap
    (fun d =>
      (metas.find? (·.match_id = d.match_id)).map (fun m =>
        ({ team := if d.striker = player then d.batting_team else d.bowling_team
           match_id := some d.match_id
           date := m.date } : LastTeam)))
  (sortByCmp
    (fun x y => (optCmpNL natCmpDesc x.date y.date).then
      (optCmpNL natCmpDesc x.match_id y.match_id))
    rows).head?

/-- The success payload of `player_stats` (the input echo of the
source's payload is omitted; it merely repeats the arguments). -/
structure PlayerStats where
  batting : BattingAgg
  bowling : BowlingAgg
  teams : List String
  last_team : Option LastTeam
  matchups : Matchups
  deriving DecidableEq, Repr

/-- `query.player_stats`: `none` (the error payload) iff the player
has no deliveries in scope; batting and bowling aggregates are
computed from the scoped frame `df`, while teams, last team and all
four matchups re-query the full delivery log. -/
def player_stats (ds : List Delivery) (metas : List MatchMeta)
    (player scope : String) (season : Option String) : Option PlayerStats :=
  if (ds.filter (playerStatsFilter player scope season)).isEmpty then none
  else some
    { batting := battingAggOf (ds.filter (playerStatsFilter player scope season)) player
      bowling := bowlingAggOf (ds.filter (playerStatsFilter player scope season)) player
      teams := teamsOf ds player
      last_team := lastTeamOf ds metas player
      matchups := matchupsOf ds player }

/-! ## `query.team_squad`

Squad of a team for a season: everyone who actually appeared (batted
or bowled for the team in that season's deliveries), united with the
players listed in the match metadata's declared squads.  The listed
set is obtained in the source by JSON-extracting
`players_map_json[team]` over the season's meta rows; that parsing is
upstream plumbing, so the model receives the resulting `listed`
name list as an argument. -/

/-- One squad entry: the appearance count is the number of distinct
matches when the player appeared, `0` when the player is only
squad-listed (`app_map.get(p, 0 if p in listed else None)`), and the
`None` default is reserved for a player in neither source. -/
structure SquadEntry where
  player : String
  appearances : Option ℕ
  deriving DecidableEq, Repr

/-- The distinct `(match_id, player)` appearance pairs for the team in
the season: batting rows (`batting_team = team`, by striker) unioned
with bowling rows (`bowling_team = team`, by bowler). -/
def appearancePairs (ds : List Delivery) (team season : String) : List (ℕ × String) :=
  (((ds.filter (fun d => d.season = season && d.batting_team = team)).map
      (fun d => (d.match_id, d.striker))) ++
    ((ds.filter (fun d => d.season = season && d.bowling_team = team)).map
      (fun d => (d.match_id, d.bowler)))).dedup

/-- Distinct matches in which `p` appeared for the team that season. -/
def appearanceCount (ds : List Delivery) (team season p : String) : ℕ :=
  countDistinct (·.1) ((appearancePairs ds team season).filter (·.2 = p))

/-- The distinct players who actually appeared for the team in the
season. -/
def squadAppeared (ds : List Delivery) (team season : String) : List String :=
  ((appearancePairs ds team season).map (·.2)).dedup

/-- One squad entry:
`app_map.get(p, 0 if p in listed else None)`. -/
def squadEntryOf (ds : List Delivery) (listed : List String) (team season p : String) :
    SquadEntry :=
  { player := p
    appearances :=
      if p ∈ squadAppeared ds team season then some (appearanceCount ds team season p)
      else if p ∈ listed then some 0 else none }

/-- The squad rows: union of appeared and listed players, sorted
ascending. -/
def squadList (ds : List Delivery) (listed : List String) (team season : String) :
    List SquadEntry :=
  (sortByCmp strCmp ((squadAppeared ds team season ++ listed).dedup)).map
    (squadEntryOf ds listed team season)

/-- `query.team_squad`: the squad rows; error iff the union is
empty. -/
def team_squad (ds : List Delivery) (listed : List String) (team season : String) :
    Except String (List SquadEntry) :=
  if (squadList ds listed team season).isEmpty then
    .error ("No squad data found for " ++ team ++ " in " ++ season)
  else .ok (squadList ds listed team season)

/-! ## `query.head_to_head`

Head-to-head summary plus per-team star performers. -/

/-- The head-to-head match list: all meta rows pairing the two teams,
optionally season-restricted, `ORDER BY date NULLS LAST, match_id`. -/
def h2hBase (metas : List MatchMeta) (team_a team_b : String)
    (scope : String) (season : Option String) : List MatchMeta :=
  sortByCmp metaCmp (metas.filter (fun m =>
    ((m.team1 = team_a && m.team2 = team_b) || (m.team1 = team_b && m.team2 = team_a)) &&
      (match season with
       | some s => if scope = "season" && s ≠ "" then m.season = s else true
       | none => true)))

/-- The batting star-performer row of `head_to_head` (`bat_sql`):
per-batter aggregate against the given opponent, with rounded strike
rate and average, per-innings fifties and hundreds. -/
structure H2HBatRow where
  batter : String
  team_for : String
  team_against : String
  runs : ℕ
  balls : ℕ
  outs : ℕ
  hundreds : ℕ
  fifties : ℕ
  sr : Option ℕ
  avg : Option ℕ
  deriving DecidableEq, Repr

/-- Build the `bat_sql` aggregate row for one
`(striker, batting_team, bowling_team)` group: `runs` sums
`runs_batter`, `balls` counts legal balls, `outs` counts rows whose
`player_dismissed` equals the striker, milestones are counted over
per-`(match_id, innings)` run totals, and `sr`/`avg` are the *rounded*
columns the `ORDER BY` uses. -/
def h2hBatRowOf (key : String × String × String) (sdelv : List Delivery) : H2HBatRow :=
  let g := sdelv.filter (fun d =>
    d.striker = key.1 && d.batting_team = key.2.1 && d.bowling_team = key.2.2)
  let runs := sumRunsBatter g
  let balls := legalBalls g
  let outs := (g.filter (fun d => d.player_dismissed = some d.striker)).length
  let innKeys := distinctsBy (fun d => (d.match_id, d.innings)) g
  let innRuns := innKeys.map (fun mk =>
    sumRunsBatter (g.filter (fun d => d.match_id = mk.1 && d.innings = mk.2)))
  { batter := key.1
    team_for := key.2.1
    team_against := key.2.2
    runs := runs
    balls := balls
    outs := outs
    hundreds := (innRuns.filter (fun r => 100 ≤ r)).length
    fifties := (innRuns.filter (fun r => 50 ≤ r && r < 100)).length
    sr := sqlRound100 (100 * runs) balls
    avg := sqlRound100 runs outs }

/-- `ORDER BY runs DESC, avg DESC NULLS LAST, sr DESC NULLS LAST,
balls ASC, batter ASC` of `bat_sql`. -/
def h2hBatCmp (x y : H2HBatRow) : Ordering :=
  (((natCmpDesc x.runs y.runs).then
    (optCmpNL natCmpDesc x.avg y.avg)).then
    (optCmpNL natCmpDesc x.sr y.sr)).then
    ((natCmp x.balls y.balls).then (strCmp x.batter y.batter))

/-- All `bat_sql` aggregate rows for batters of `team_for` against
`team_against`, over the deliveries of the head-to-head matches
(season filter already applied to the scope). -/
def h2hBatRows (sdelv : List Delivery) (team_for team_against : String) :
    List H2HBatRow :=
  ((distinctsBy (fun d => (d.striker, d.batting_team, d.bowling_team)) sdelv).map
      (fun k => h2hBatRowOf k sdelv)).filter
    (fun r => r.team_for = team_for && r.team_against = team_against)

/-- The `bat_sql` star pick: best row under `h2hBatCmp` (`LIMIT 1`). -/
def h2hBatStar (sdelv : List Delivery) (team_for team_against : String) :
    Option H2HBatRow :=
  (sortByCmp h2hBatCmp (h2hBatRows sdelv team_for team_against)).head?

/-- The bowling star-performer row of `head_to_head` (`bowl_sql`). -/
structure H2HBowlRow where
  bowler : String
  team_for : String
  team_against : String
  balls : ℕ
  runs_conceded : ℕ
  wickets : ℕ
  economy : Option ℕ
  deriving DecidableEq, Repr

/-- Build the `bowl_sql` aggregate row for one
`(bowler, bowling_team, batting_team)` group; `wickets` is
`wicketsNoRunOut` — non-null dismissals excluding run-outs. -/
def h2hBowlRowOf (key : String × String × String) (sdelv : List Delivery) : H2HBowlRow :=
  let g := sdelv.filter (fun d =>
    d.bowler = key.1 && d.bowling_team = key.2.1 && d.batting_team = key.2.2)
  { bowler := key.1
    team_for := key.2.1
    team_against := key.2.2
    balls := legalBalls g
    runs_conceded := sumRunsTotal g
    wickets := wicketsNoRunOut g
    economy := sqlRound100 (6 * sumRunsTotal g) (legalBalls g) }

/-- `ORDER BY wickets DESC, economy ASC NULLS LAST, runs_conceded ASC,
balls DESC, bowler ASC` of `bowl_sql`. -/
def h2hBowlCmp (x y : H2HBowlRow) : Ordering :=
  (((natCmpDesc x.wickets y.wickets).then
    (optCmpNL natCmp x.economy y.economy)).then
    (natCmp x.runs_conceded y.runs_conceded)).then
    ((natCmpDesc x.balls y.balls).then (strCmp x.bowler y.bowler))

/-- All `bowl_sql` aggregate rows for bowlers of `team_for` against
`team_against`. -/
def h2hBowlRows (sdelv : List Delivery) (team_for team_against : String) :
    List H2HBowlRow :=
  ((distinctsBy (fun d => (d.bowler, d.bowling_team, d.batting_team)) sdelv).map
      (fun k => h2hBowlRowOf k sdelv)).filter
    (fun r => r.team_for = team_for && r.team_against = team_against)

/-- The `bowl_sql` star pick. -/
def h2hBowlStar (sdelv : List Delivery) (team_for team_against : String) :
    Option H2HBowlRow :=
  (sortByCmp h2hBowlCmp (h2hBowlRows sdelv team_for team_against)).head?

/-- The `head_to_head` summary block. -/
structure H2HSummary where
  matchCount : ℕ
  wins_a : ℕ
  wins_b : ℕ
  ties : ℕ
  no_result : ℕ
  earliest : Option MatchMeta
  latest : Option MatchMeta
  deriving DecidableEq, Repr

/-- The success payload of `head_to_head`. -/
structure H2HResult where
  summary : H2HSummary
  star_bat_a : Option H2HBatRow
  star_bowl_a : Option H2HBowlRow
  star_bat_b : Option H2HBatRow
  star_bowl_b : Option H2HBowlRow
  deriving DecidableEq, Repr

/-- The deliveries in scope for the star queries: `match_id` in the
head-to-head match list, plus the same season filter again. -/
def h2hScopedDeliveries (ds : List Delivery) (base : List MatchMeta)
    (scope : String) (season : Option String) : List Delivery :=
  ds.filter (fun d =>
    (base.any (fun m => m.match_id = d.match_id)) &&
      (match season with
       | some s => if scope = "season" && s ≠ "" then d.season = s else true
       | none => true))

/-- `query.head_to_head`: error iff no matches pair the two teams in
scope; wins are counted by `winner` equality, ties by a null winner,
`no_result` is hard-coded `0`; stars are computed per team
direction. -/
def head_to_head (metas : List MatchMeta) (ds : List Delivery)
    (team_a team_b : String) (scope : String) (season : Option String) :
    Except String H2HResult :=
  let base := h2hBase metas team_a team_b scope season
  if base.isEmpty then
    .error ("No head-to-head matches found between " ++ team_a ++ " and " ++ team_b)
  else
    let sdelv := h2hScopedDeliveries ds base scope season
    .ok
      { summary :=
          { matchCount := base.length
            wins_a := (base.filter (·.winner = some team_a)).length
            wins_b := (base.filter (·.winner = some team_b)).length
            ties := (base.filter (·.winner.isNone)).length
            no_result := 0
            earliest := base.head?
            latest := base.getLast? }
        star_bat_a := h2hBatStar sdelv team_a team_b
        star_bowl_a := h2hBowlStar sdelv team_a team_b
        star_bat_b := h2hBatStar sdelv team_b team_a
        star_bowl_b := h2hBowlStar sdelv team_b team_a }

/-! ## `resolver.best_phase_bowlers`

Phase-restricted bowling leaderboard. -/

/-- One aggregate row of the `bowl` CTE plus the derived display
columns of the final `SELECT`.  The ranking (`ORDER BY economy ASC
NULLS LAST, average ASC NULLS LAST, strike_rate ASC NULLS LAST,
overs DESC, bowler ASC`) uses the *unrounded* ratios, recomputed by
cross-multiplication from the integer fields kept here; `overs` is
`legal_balls/6.0`, strictly monotone in `legal_balls`.  The rounded
two-decimal display values are carried as hundredths. -/
structure PhaseBowlerRow where
  bowler : String
  legal_balls : ℕ
  runs_conceded : ℕ
  wickets : ℕ
  matchesPlayed : ℕ
  dots : ℕ
  boundaries : ℕ
  economy : Option ℕ
  average : Option ℕ
  strike_rate : Option ℕ
  dot_pct : Option ℕ
  boundary_pct : Option ℕ
  deriving DecidableEq, Repr

/-- The unrounded economy of a row as a ratio (`NULL` iff no legal
ball): `runs_conceded * 6.0 / NULLIF(legal_balls, 0)`. -/
def pbEconFrac (r : PhaseBowlerRow) : Option (ℕ × ℕ) :=
  if r.legal_balls = 0 then none else some (6 * r.runs_conceded, r.legal_balls)

/-- The unrounded bowling average as a ratio (`NULL` iff no wicket):
`runs_conceded / NULLIF(wickets, 0)`. -/
def pbAvgFrac (r : PhaseBowlerRow) : Option (ℕ × ℕ) :=
  if r.wickets = 0 then none else some (r.runs_conceded, r.wickets)

/-- The unrounded bowling strike rate as a ratio (`NULL` iff no
wicket): `legal_balls / NULLIF(wickets, 0)`. -/
def pbSrFrac (r : PhaseBowlerRow) : Option (ℕ × ℕ) :=
  if r.wickets = 0 then none else some (r.legal_balls, r.wickets)

/-- The leaderboard comparator of `best_phase_bowlers`. -/
def phaseBowlerCmp (x y : PhaseBowlerRow) : Ordering :=
  (((optCmpNL fracCmp (pbEconFrac x) (pbEconFrac y)).then
    (optCmpNL fracCmp (pbAvgFrac x) (pbAvgFrac y))).then
    (optCmpNL fracCmp (pbSrFrac x) (pbSrFrac y))).then
    ((natCmpDesc x.legal_balls y.legal_balls).then (strCmp x.bowler y.bowler))

/-- The `bowl` CTE row for one bowler over the phase-filtered
deliveries, with the derived display columns. -/
def phaseBowlerRowOf (b : String) (fds : List Delivery) : PhaseBowlerRow :=
  let g := fds.filter (·.bowler = b)
  let lb := legalBalls g
  let rc := sumRunsTotal g
  let w := countDismissed g
  let dots := (g.filter (fun d => d.runs_total = 0 && d.player_dismissed.isNone)).length
  let bnd := (g.filter (fun d => d.runs_batter = 4 || d.runs_batter = 6)).length
  { bowler := b
    legal_balls := lb
    runs_conceded := rc
    wickets := w
    matchesPlayed := countDistinct (·.match_id) g
    dots := dots
    boundaries := bnd
    economy := sqlRound100 (6 * rc) lb
    average := sqlRound100 rc w
    strike_rate := sqlRound100 lb w
    dot_pct := sqlRound100 (100 * dots) lb
    boundary_pct := sqlRound100 (100 * bnd) lb }

/-- The phase/season filter of `best_phase_bowlers`
(`WHERE phase = ?` plus `AND season = ?` for season scope). -/
def phaseFilter (phase scope : String) (season : Option String) (d : Delivery) : Bool :=
  d.phase = phase &&
    (match season with
     | some s => if scope = "season" && s ≠ "" then d.season = s else true
     | none => true)

/-- `resolver.best_phase_bowlers`: aggregate per bowler over the
phase-filtered deliveries, keep bowlers with at least `min_overs * 6`
legal balls, rank, and return the first ten (`rk <= 10`). -/
def best_phase_bowlers (ds : List Delivery) (phase scope : String)
    (season : Option String) (min_overs : ℕ) : List PhaseBowlerRow :=
  let fds := ds.filter (phaseFilter phase scope season)
  let rows := (distinctsBy (·.bowler) fds).map (fun b => phaseBowlerRowOf b fds)
  (sortByCmp phaseBowlerCmp (rows.filter (fun r => min_overs * 6 ≤ r.legal_balls))).take 10

/-! ## `resolver.Resolver.resolve_player`

Resolution of a user-typed player name against the canonical player
universe, by the fixed precedence chain: manual alias → exact
normalized match → initials key → substring containment → fuzzy.
The `players` list is the resolver's sorted canonical universe
(`self.players`); the normalized and initials dictionaries are Python
dict comprehensions over it, where a later player overwrites an
earlier one on a key collision — modelled by taking the *last*
matching player.  The rapidfuzz-backed `best_fuzzy_match(text,
players, 85)` is abstracted as a function parameter `fuzzy`. -/

/-- The manual player alias table (`PLAYER_ALIASES`). -/
def PLAYER_ALIASES : List (String × String) :=
  [("rohit sharma", "RG Sharma"),
   ("virat kohli", "V Kohli"),
   ("sachin tendulkar", "SR Tendulkar"),
   ("sourav ganguly", "SC Ganguly"),
   ("rahul dravid", "R Dravid"),
   ("ms dhoni", "MS Dhoni"),
   ("gautam gambhir", "G Gambhir"),
   ("ab de villiers", "AB de Villiers")]

/-- Association-list lookup (Python `dict` membership on a literal
table with distinct keys). -/
def lookupAssoc (t : List (String × String)) (k : String) : Option String :=
  (t.find? (·.1 = k)).map (·.2)

/-- Lookup in the comprehension `{ f(p): p for p in players }`:
the last player whose key equals `k` (later entries overwrite
earlier ones). -/
def dictLookupLast (f : String → String) (players : List String) (k : String) :
    Option String :=
  (players.filter (fun p => f p = k)).getLast?

/-- The substring-step candidates: players whose normalized canonical
name contains the normalized input, capped at ten (the source appends
matches in order and breaks out of the loop as soon as ten are
collected, which yields the first ten matches). -/
def substringChoices (players : List String) (key : String) : List String :=
  (players.filter (fun p => strContains (norm p) key)).take 10

/-- `resolver.Resolver.resolve_player`: returns the canonical name (or
`none`) together with the ambiguity candidates. -/
def resolve_player (fuzzy : String → List String → Option String)
    (players : List String) (user_text : String) :
    Option String × List String :=
  if user_text = "" then (none, [])
  else
    let key := norm user_text
    match lookupAssoc PLAYER_ALIASES key with
    | some target =>
      match dictLookupLast norm players (norm target) with
      | some canon => (some canon, [])
      | none =>
        match dictLookupLast initials_key players (initials_key target) with
        | some canon => (some canon, [])
        | none => (some target, [])
    | none =>
      match dictLookupLast norm players key with
      | some canon => (some canon, [])
      | none =>
        match dictLookupLast initials_key players (initials_key user_text) with
        | some canon => (some canon, [])
        | none =>
          let choices := substringChoices players key
          if choices.length = 1 then (choices.head?, [])
          else if 1 < choices.length then (none, choices)
          else
            match fuzzy user_text players with
            | some f => (some f, [])
            | none => (none, [])

/-! ## Regex-matching helpers for `router.py`

`router.py` drives intent classification with a fixed set of Python
regexes.  Each regex is modelled operationally by a dedicated matcher
over character lists, following Python `re` semantics: `re.search`
scans start positions left to right; a lazy quantifier (`+?`) grows
its capture from the shortest candidate; a greedy one shrinks from
the longest; `\b` holds where exactly one neighbour is a word
character.  A `\s+` between a capture class containing spaces and a
literal is matched by maximal munch, which coincides with the
backtracking semantics whenever the following literal does not begin
with whitespace (true of every pattern here). -/

/-- Case-insensitive prefix test (all router regexes use
`re.IGNORECASE`). -/
def startsWithCI : List Char → List Char → Bool
  | [], _ => true
  | _ :: _, [] => false
  | a :: as, b :: bs => pyLower a = pyLower b && startsWithCI as bs

/-- Case-insensitive substring test (`re.search` of a plain literal). -/
def containsCI (pat : List Char) : List Char → Bool
  | [] => pat.isEmpty
  | c :: cs => startsWithCI pat (c :: cs) || containsCI pat cs

/-- Does any of the literals occur as a (case-insensitive)
substring? -/
def containsAnyCI (pats : List String) (s : String) : Bool :=
  pats.any (fun p => containsCI p.toList s.toList)

/-- Is there a word character on the given side of a position?
(`none` = string edge). -/
def wordSide : Option Char → Bool
  | none => false
  | some c => isWordChar c

/-- The regex word boundary `\b` between two neighbouring positions. -/
def isBoundary (prev next : Option Char) : Bool :=
  wordSide prev != wordSide next

/-- Does the literal `w`, flanked by `\b` on both sides, match at the
head of `l` (whose predecessor character is `prev`)? -/
def matchesWordAt (w : List Char) (prev : Option Char) (l : List Char) : Bool :=
  startsWithCI w l && isBoundary prev l.head? &&
    isBoundary ((l.take w.length).getLast?) ((l.drop w.length).head?)

/-- `re.search(rf"\b{w}\b", s)` for a literal `w` (which may contain
spaces or hyphens), case-insensitive: scan every start position. -/
def hasWordCIAux (w : List Char) (prev : Option Char) : List Char → Bool
  | [] => false
  | c :: cs => matchesWordAt w prev (c :: cs) || hasWordCIAux w (some c) cs

/-- Word-boundary search for a literal. -/
def hasWordCI (w : String) (s : String) : Bool :=
  hasWordCIAux w.toList none s.toList

/-- Word-boundary search for any of several literals
(`\b(a|b|...)\b`). -/
def hasWordAnyCI (ws : List String) (s : String) : Bool :=
  ws.any (fun w => hasWordCI w s)

/-- A piece of an anchored literal pattern: a literal, one-or-more
whitespace (`\s+`), or optional whitespace (`\s*`). -/
inductive PatPiece where
  | lit : List Char → PatPiece
  | ws1 : PatPiece
  | ws0 : PatPiece

/-- Match a sequence of pieces at the head of `l`, whitespace by
maximal munch; returns the remainder. -/
def matchPieces : List PatPiece → List Char → Option (List Char)
  | [], l => some l
  | .lit w :: ps, l =>
    if startsWithCI w l then matchPieces ps (l.drop w.length) else none
  | .ws1 :: ps, l =>
    match l with
    | c :: cs => if isPySpace c then matchPieces ps (cs.dropWhile (isPySpace ·)) else none
    | [] => none
  | .ws0 :: ps, l => matchPieces ps (l.dropWhile (isPySpace ·))

/-- `\s+` by maximal munch: require one whitespace character and
consume the whole run. -/
def wsThen : List Char → Option (List Char)
  | c :: cs => if isPySpace c then some (cs.dropWhile (isPySpace ·)) else none
  | [] => none

/-- The lazy capture-to-boundary step `([cls]+?)\b`: grow the capture
one class character at a time, stopping at the first length at which a
word boundary follows; returns the capture and the remainder. -/
def lazyGroupBd (cls : Char → Bool) (acc : List Char) :
    List Char → Option (List Char × List Char)
  | [] => none
  | c :: cs =>
    if cls c then
      if isBoundary (some c) cs.head? then some (acc ++ [c], cs)
      else lazyGroupBd cls (acc ++ [c]) cs
    else none

/-- The lazy capture step `([cls]+?)` followed by a continuation: grow
the capture one class character at a time, at each length attempting
the continuation on the remainder. -/
def lazyGroupThen (cls : Char → Bool) (after : List Char → Option β) (acc : List Char) :
    List Char → Option (List Char × β)
  | [] => none
  | c :: cs =>
    if cls c then
      match after cs with
      | some b => some (acc ++ [c], b)
      | none => lazyGroupThen cls after (acc ++ [c]) cs
    else none

/-- Try the literal alternatives in regex order, each followed by
`\s+` (used for the connective of `A vs B`-shaped patterns). -/
def altThenWs (alts : List (List Char)) (l : List Char) : Option (List Char) :=
  alts.findSome? (fun a =>
    if startsWithCI a l then wsThen (l.drop a.length) else none)

/-- The continuation after the left capture of an
`\b(G1+?)\s+(ALT)\s+(G2+?)\b` pattern: `\s+`, a connective
alternative, `\s+`, then the lazy right capture to a boundary. -/
def vsAfterG1 (cls2 : Char → Bool) (alts : List (List Char)) (l : List Char) :
    Option (List Char × List Char) :=
  (wsThen l).bind (fun p => (altThenWs alts p).bind (lazyGroupBd cls2 []))

/-- Scan of `\b([cls1]+?)\s+(ALT)\s+([cls2]+?)\b`: at each start
position require a word boundary, then the lazy left capture with the
`vsAfterG1` continuation. -/
def vsLikeSearchAux (cls1 cls2 : Char → Bool) (alts : List (List Char))
    (prev : Option Char) : List Char → Option (List Char × List Char)
  | [] => none
  | c :: cs =>
    (if isBoundary prev (some c) then
      match lazyGroupThen cls1 (vsAfterG1 cls2 alts) [] (c :: cs) with
      | some (g1, (g2, _)) => some (g1, g2)
      | none => none
     else none).orElse
      (fun _ => vsLikeSearchAux cls1 cls2 alts (some c) cs)

/-- Search for `\b(G1+?)\s+(ALT)\s+(G2+?)\b` in a string. -/
def vsLikeSearch (cls1 cls2 : Char → Bool) (alts : List (List Char)) (s : List Char) :
    Option (List Char × List Char) :=
  vsLikeSearchAux cls1 cls2 alts none s

/-- Scan of `between\s+([cls]+?)\s+and\s+([cls]+?)\b` (no word
boundary before `between`, per the source pattern). -/
def betweenSearchAux (cls : Char → Bool) : List Char → Option (List Char × List Char)
  | [] => none
  | c :: cs =>
    (if startsWithCI "between".toList (c :: cs) then
      match
        (wsThen ((c :: cs).drop 7)).bind
          (lazyGroupThen cls
            (fun l => (wsThen l).bind (fun p =>
              (altThenWs ["and".toList] p).bind (lazyGroupBd cls []))) [])
      with
      | some (g1, (g2, _)) => some (g1, g2)
      | none => none
     else none).orElse (fun _ => betweenSearchAux cls cs)

/-! ## `router.py` -/

/-- Short team tags (`TEAM_SHORTS`, an identity mapping). -/
def TEAM_SHORTS : List (String × String) :=
  [("CSK", "CSK"), ("MI", "MI"), ("RCB", "RCB"), ("KKR", "KKR"), ("SRH", "SRH"),
   ("DC", "DC"), ("DD", "DD"), ("KXIP", "KXIP"), ("PBKS", "PBKS"), ("RR", "RR"),
   ("RPS", "RPS"), ("GL", "GL"), ("KTK", "KTK"), ("PWI", "PWI")]

/-- Full team names, lower-cased (`TEAM_FULL`). -/
def TEAM_FULL : List String :=
  ["chennai super kings", "mumbai indians", "royal challengers bangalore",
   "kolkata knight riders", "sunrisers hyderabad", "delhi capitals",
   "deccan chargers", "kings xi punjab", "punjab kings", "rajasthan royals",
   "rising pune supergiant", "rising pune supergiants", "gujarat lions",
   "kochi tuskers kerala", "pune warriors india"]

/-- Python `str.strip()` on a `String`. -/
def pyStrip (s : String) : String := String.mk (trimWs s.toList)

/-- Python `str.upper()` (ASCII model). -/
def pyUpperStr (s : String) : String := String.mk (s.toList.map pyUpper)

/-- Python `str.lower()` (ASCII model). -/
def pyLowerStr (s : String) : String := String.mk (s.toList.map pyLower)

/-- Python `str.title()` (ASCII model): upper-case a letter following
a non-letter, lower-case a letter following a letter. -/
def pyTitleAux : Bool → List Char → List Char
  | _, [] => []
  | prevAlpha, c :: cs =>
    if isAsciiAlpha c then
      (if prevAlpha then pyLower c else pyUpper c) :: pyTitleAux true cs
    else c :: pyTitleAux false cs

/-- Python `str.title()` on a `String`. -/
def pyTitleStr (s : String) : String := String.mk (pyTitleAux false s.toList)

/-- `router.is_team_token`: the stripped token upper-cases to a known
short code, or lower-cases to a known full team name. -/
def is_team_token (tok : String) : Bool :=
  (lookupAssoc TEAM_SHORTS (pyUpperStr (pyStrip tok))).isSome ||
    TEAM_FULL.contains (pyLowerStr (pyStrip tok))

/-- `router.clean_space`: strip, collapse inner whitespace runs. -/
def clean_space (s : String) : String :=
  String.mk (collapseWs (trimWs s.toList))

/-- The alternatives of the leading-intent-word regex
(`INTENT_PREFIX`), in the source's alternation order, each with the
final literal character used for the trailing `\b` test.  The
variable-width `head\s*to\s*head` is matched with `\s*` pieces; the
optional greedy `(?:\s+of)?` suffixes become a longer alternative
tried before the bare word. -/
def leadAlts : List (List PatPiece × Char) :=
  [([.lit "show".toList], 'w'), ([.lit "tell".toList], 'l'),
   ([.lit "give".toList], 'e'), ([.lit "get".toList], 't'),
   ([.lit "display".toList], 'y'), ([.lit "list".toList], 't'),
   ([.lit "compare".toList], 'e'), ([.lit "comparison".toList], 'n'),
   ([.lit "head".toList, .ws0, .lit "to".toList, .ws0, .lit "head".toList], 'd'),
   ([.lit "h2h".toList], 'h'), ([.lit "versus".toList], 's'),
   ([.lit "vs".toList], 's'), ([.lit "v.".toList], '.'), ([.lit "v".toList], 'v'),
   ([.lit "summary".toList, .ws1, .lit "of".toList], 'f'),
   ([.lit "summary".toList], 'y'),
   ([.lit "what".toList, .ws1, .lit "happened".toList], 'd'),
   ([.lit "match".toList, .ws1, .lit "report".toList], 't'),
   ([.lit "result".toList, .ws1, .lit "of".toList], 'f'),
   ([.lit "result".toList], 't'),
   ([.lit "scorecard".toList, .ws1, .lit "of".toList], 'f'),
   ([.lit "scorecard".toList], 'd')]

/-- The separator class `[:,\-\s]*` consumed after a matched intent
word. -/
def isLeadSep (c : Char) : Bool :=
  c = ':' || c = ',' || c = '-' || isPySpace c

/-- One application of `INTENT_PREFIX.sub("", q, count=1)`: skip
leading whitespace (`^\s*`), match the first alternative that fits
with a word boundary after it, consume the separators; `none` when no
alternative matches (the string is returned unchanged). -/
def stripLeadOnce (l : List Char) : Option (List Char) :=
  let l0 := l.dropWhile (isPySpace ·)
  leadAlts.findSome? (fun pc =>
    match matchPieces pc.1 l0 with
    | some rest =>
      if isBoundary (some pc.2) rest.head? then
        some (rest.dropWhile (isLeadSep ·))
      else none
    | none => none)

/-- Iterate `stripLeadOnce` to its fixed point (the source's
`while True` loop); each successful strike removes at least one
character, so the input length bounds the iterations. -/
def stripLeadLoop : ℕ → List Char → List Char
  | 0, l => l
  | n + 1, l =>
    match stripLeadOnce l with
    | some l' => stripLeadLoop n l'
    | none => l

/-- `router.strip_intent_prefix` (named `strip_intent_lead` here):
strip leading intent words, then collapse whitespace and trim. -/
def strip_intent_lead (q : String) : String :=
  String.mk (collapseWs (trimWs (stripLeadLoop q.toList.length q.toList)))

/-- The capture class `[a-z .&/]` of `extract_teams_pair`
(case-insensitive). -/
def isTeamPairChar (c : Char) : Bool :=
  isAsciiAlpha c || c = ' ' || c = '.' || c = '&' || c = '/'

/-- The left capture class `[a-z .]` of `extract_player_vs_team`. -/
def isPlayerChar (c : Char) : Bool :=
  isAsciiAlpha c || c = ' ' || c = '.'

/-- The capture class `[a-z .&]` of `extract_player_vs_team`'s right
side and the squad/stats extractors. -/
def isSquadChar (c : Char) : Bool :=
  isAsciiAlpha c || c = ' ' || c = '.' || c = '&'

/-- The connective alternatives `(?:vs|v\.?|versus|against)`
(`VS_WORDS`), in alternation order with the greedy optional dot. -/
def vsAlts : List (List Char) :=
  ["vs".toList, "v.".toList, "v".toList, "versus".toList, "against".toList]

/-- Replace `&` by `" and "` (Python `str.replace`). -/
def replaceAmp (l : List Char) : List Char :=
  l.flatMap (fun c => if c = '&' then " and ".toList else [c])

/-- Model of `re.sub(r"\b(?:IN|FOR)\s+20\d{2}(?:/\d{2})?\b", "", u)`
(case-sensitive, applied to an upper-cased string): try to match the
season phrase at the head of `l` whose predecessor is `prev`; return
the remainder and the last matched character. -/
def matchSeasonPhrase (prev : Option Char) (l : List Char) : Option (List Char × Char) :=
  if isBoundary prev l.head? then
    (["IN".toList, "FOR".toList].findSome? (fun w =>
      if startsWithSeq w l then wsThen (l.drop w.length) else none)).bind
      (fun r =>
        match r with
        | c0 :: c1 :: c2 :: c3 :: rest =>
          if c0 = '2' && c1 = '0' && isAsciiDigit c2 && isAsciiDigit c3 then
            match rest with
            | '/' :: d1 :: d2 :: rest2 =>
              if isAsciiDigit d1 && isAsciiDigit d2 &&
                  isBoundary (some d2) rest2.head? then
                some (rest2, d2)
              else some (rest, c3)
            | _ =>
              if isBoundary (some c3) rest.head? then some (rest, c3) else none
          else none
        | _ => none)
  else none

/-- Remove every season phrase (`re.sub` replaces all non-overlapping
matches, scanning the original string).  Every step consumes at least
one character, so the list length bounds the recursion (fuel). -/
def stripSeasonPhrasesAux (fuel : ℕ) (prev : Option Char) (l : List Char) : List Char :=
  match fuel, l with
  | 0, l => l
  | _, [] => []
  | f + 1, c :: cs =>
    match matchSeasonPhrase prev (c :: cs) with
    | some (rest, lastc) => stripSeasonPhrasesAux f (some lastc) rest
    | none => c :: stripSeasonPhrasesAux f (some c) cs

/-- Remove every `IN`/`FOR` + season phrase. -/
def stripSeasonPhrases (prev : Option Char) (l : List Char) : List Char :=
  stripSeasonPhrasesAux l.length prev l

/-- `router.normalize_team_token`: strip/upper/collapse the token,
remove `IN`/`FOR` + season phrases, look the result up among the short
codes, else fall back to the title-cased stripped original. -/
def normalize_team_token (tok : String) : String :=
  let u := String.mk (collapseWs (trimWs (tok.toList.map pyUpper)))
  let u2 := String.mk (trimWs (stripSeasonPhrases none u.toList))
  match lookupAssoc TEAM_SHORTS u2 with
  | some v => v
  | none => pyTitleStr (pyStrip tok)

/-- Strip a trailing season phrase from the right capture of the
`vs` branch: `re.sub(r"\b(?:in|for)\s+20\d{2}(?:/\d{2})?\b.*$", "",
b, flags=IGNORECASE).strip()` — truncate at the first
boundary-delimited `in`/`for` + year and strip. -/
def stripSeasonTailAux (prev : Option Char) : List Char → List Char
  | [] => []
  | c :: cs =>
    let hit :=
      if isBoundary prev (some c) then
        (["in".toList, "for".toList].findSome? (fun w =>
          if startsWithCI w (c :: cs) then wsThen ((c :: cs).drop w.length)
          else none)).bind (fun r =>
          match r with
          | c0 :: c1 :: c2 :: c3 :: rest =>
            if c0 = '2' && c1 = '0' && isAsciiDigit c2 && isAsciiDigit c3 then
              match rest with
              | '/' :: d1 :: d2 :: rest2 =>
                if isAsciiDigit d1 && isAsciiDigit d2 &&
                    isBoundary (some d2) rest2.head? then some ()
                else some ()
              | _ => if isBoundary (some c3) rest.head? then some () else none
            else none
          | _ => none)
      else none
    match hit with
    | some _ => []
    | none => c :: stripSeasonTailAux (some c) cs

/-- Truncate-and-strip of the `vs` branch's right capture. -/
def stripSeasonTail (b : String) : String :=
  String.mk (trimWs (stripSeasonTailAux none b.toList))

/-- `router.extract_teams_pair`: strip intent words, expand `&`, then
try `A vs B`, `between A and B`, and team-token-gated `A and B`. -/
def extract_teams_pair (q : String) : Option (String × String) :=
  let qs := replaceAmp (strip_intent_lead q).toList
  match vsLikeSearch isTeamPairChar isTeamPairChar vsAlts qs with
  | some (a, b) =>
    some (clean_space (String.mk a), stripSeasonTail (clean_space (String.mk b)))
  | none =>
    match betweenSearchAux isTeamPairChar qs with
    | some (a, b) => some (clean_space (String.mk a), clean_space (String.mk b))
    | none =>
      match vsLikeSearch isTeamPairChar isTeamPairChar ["and".toList] qs with
      | some (a, b) =>
        let a' := clean_space (String.mk a)
        let b' := clean_space (String.mk b)
        if (is_team_token a' || (lookupAssoc TEAM_SHORTS (pyUpperStr a')).isSome) &&
            (is_team_token b' || (lookupAssoc TEAM_SHORTS (pyUpperStr b')).isSome) then
          some (a', b')
        else none
      | none => none

/-- `router.extract_player_vs_team`: an `A vs B` pattern whose left
side does not look like a team; the second `against`-only search of
the source is subsumed by the first (`against` is a `VS_WORDS`
alternative) and modelled by the same call. -/
def extract_player_vs_team (q : String) : Option (String × String) :=
  let qs := replaceAmp (strip_intent_lead q).toList
  match vsLikeSearch isPlayerChar isSquadChar vsAlts qs with
  | some (l, r) =>
    let left := clean_space (String.mk l)
    let right := clean_space (String.mk r)
    if !is_team_token left && (lookupAssoc TEAM_SHORTS (pyUpperStr left)).isNone then
      some (left, normalize_team_token right)
    else none
  | none => none

/-- The squad-word alternatives of `SQUAD_WORDS`
(`squad|roster|line[-\s]?up|team list|players list`), the optional
`[-\s]?` expanded. -/
def squadWordAlts : List (List Char) :=
  ["squad".toList, "roster".toList, "line-up".toList, "line up".toList,
   "lineup".toList, "team list".toList, "players list".toList]

/-- The greedy capture `([cls]+)\b`-with-continuation: take the
longest class-character prefix for which the continuation succeeds
(regex greedy backtracking). -/
def greedyGroupThen (cls : Char → Bool) (after : List Char → Option β)
    (l : List Char) : Option (List Char × β) :=
  let run := l.takeWhile cls
  let rest := l.drop run.length
  (List.range run.length).findSome? (fun i =>
    let k := run.length - i
    (after (run.drop k ++ rest)).map (fun b => (run.take k, b)))

/-- Pattern A of `extract_team_for_squad`:
`\b(SQUAD_WORDS)\s+(?:of|for)?\s*([a-z .&]+)` — find a
boundary-delimited squad word, require whitespace, optionally consume
`of`/`for` plus optional whitespace (backtracking to not consuming
when no capture would remain), then the greedy maximal class run. -/
def squadPatA (prev : Option Char) : List Char → Option (List Char)
  | [] => none
  | c :: cs =>
    (if isBoundary prev (some c) then
      (squadWordAlts.findSome? (fun w =>
        if startsWithCI w (c :: cs) then
          (wsThen ((c :: cs).drop w.length)).bind (fun p =>
            let withOf :=
              (["of".toList, "for".toList].findSome? (fun o =>
                if startsWithCI o p then
                  let g := (p.drop o.length).dropWhile (isPySpace ·) |>.takeWhile isSquadChar
                  if g.isEmpty then none else some g
                else none))
            withOf.orElse (fun _ =>
              let g := p.takeWhile isSquadChar
              if g.isEmpty then none else some g))
        else none))
     else none).orElse (fun _ => squadPatA (some c) cs)

/-- Pattern B of `extract_team_for_squad`:
`\b([a-z .&]+)\s+(SQUAD_WORDS)\b` — greedy left capture followed by
whitespace and a squad word ending at a boundary. -/
def squadPatB (prev : Option Char) : List Char → Option (List Char)
  | [] => none
  | c :: cs =>
    (if isBoundary prev (some c) then
      (greedyGroupThen isSquadChar
        (fun l => (wsThen l).bind (fun p =>
          squadWordAlts.findSome? (fun w =>
            if startsWithCI w p &&
                isBoundary ((p.take w.length).getLast?) ((p.drop w.length).head?) then
              some ()
            else none)))
        (c :: cs)).map (·.1)
     else none).orElse (fun _ => squadPatB (some c) cs)

/-- `router.extract_team_for_squad`. -/
def extract_team_for_squad (q : String) : Option String :=
  let qs := (strip_intent_lead q).toList
  match squadPatA none qs with
  | some g => some (clean_space (String.mk g))
  | none => (squadPatB none qs).map (fun g => clean_space (String.mk g))

/-- The stats-word alternatives of `STATS_WORDS`
(`stats?|statistics|figures|numbers|record|profile`), the optional
`s?` expanded greedily (longer form first). -/
def statsWordAlts : List (List Char) :=
  ["stats".toList, "stat".toList, "statistics".toList, "figures".toList,
   "numbers".toList, "record".toList, "profile".toList]

/-- Does a boundary-delimited stats word start at the head of `l`?
Returns the word's last character (for later boundary tests) and the
remainder. -/
def statsWordAt (prev : Option Char) (l : List Char) : Option (Char × List Char) :=
  if isBoundary prev l.head? then
    statsWordAlts.findSome? (fun w =>
      if startsWithCI w l &&
          isBoundary ((l.take w.length).getLast?) ((l.drop w.length).head?) then
        ((l.take w.length).getLast?).map (fun lc => (lc, l.drop w.length))
      else none)
  else none

/-- The greedy capture-to-boundary `([cls]+)\b`: the longest non-empty
class-character prefix ending at a word boundary. -/
def greedyGroupBd (cls : Char → Bool) (l : List Char) : Option (List Char) :=
  let run := l.takeWhile cls
  let rest := l.drop run.length
  (List.range run.length).findSome? (fun i =>
    let k := run.length - i
    if isBoundary ((run.take k).getLast?) ((run.drop k ++ rest).head?) then
      some (run.take k)
    else none)

/-- The lazy-skip-then-capture tail `.*?\b([a-z .]+)\b`: scan
positions left to right (lazy `.*?`); at the first position where a
word boundary meets a class run that can end at a boundary, take the
longest such run (greedy capture). -/
def lazyThenGroup (prev : Option Char) : List Char → Option (List Char)
  | [] => none
  | c :: cs =>
    (if isBoundary prev (some c) then greedyGroupBd isPlayerChar (c :: cs)
     else none).orElse (fun _ => lazyThenGroup (some c) cs)

/-- Pattern A of `extract_player_for_stats`:
`\b(STATS_WORDS)\b.*?\b([a-z .]+)\b`. -/
def statsPatA (prev : Option Char) : List Char → Option (List Char)
  | [] => none
  | c :: cs =>
    (match statsWordAt prev (c :: cs) with
     | some (lc, rest) => lazyThenGroup (some lc) rest
     | none => none).orElse (fun _ => statsPatA (some c) cs)

/-- Is there a boundary-delimited stats word anywhere in `l` (whose
predecessor character is `prev`)? -/
def hasStatsWordFrom (prev : Option Char) : List Char → Bool
  | [] => false
  | c :: cs => (statsWordAt prev (c :: cs)).isSome || hasStatsWordFrom (some c) cs

/-- Pattern B of `extract_player_for_stats`:
`\b([a-z .]+)\b.*?\b(STATS_WORDS)\b` — greedy left capture ending at
a boundary, followed somewhere later by a stats word. -/
def statsPatB (prev : Option Char) : List Char → Option (List Char)
  | [] => none
  | c :: cs =>
    (if isBoundary prev (some c) then
      let run := (c :: cs).takeWhile isPlayerChar
      let rest := (c :: cs).drop run.length
      (List.range run.length).findSome? (fun i =>
        let k := run.length - i
        if isBoundary ((run.take k).getLast?) ((run.drop k ++ rest).head?) &&
            hasStatsWordFrom ((run.take k).getLast?) (run.drop k ++ rest) then
          some (run.take k)
        else none)
     else none).orElse (fun _ => statsPatB (some c) cs)

/-- `router.extract_player_for_stats`. -/
def extract_player_for_stats (q : String) : Option String :=
  let qs := (strip_intent_lead q).toList
  match statsPatA none qs with
  | some g => some (clean_space (String.mk g))
  | none => (statsPatB none qs).map (fun g => clean_space (String.mk g))

/-! ## `router.py` — season/nth/phase parsing and intent scoring -/

/-- Match `\b(20\d{2})(?:/\d{2})?\b` at the head of `l`; returns the
matched span (`m.group(0)`, season suffix included when present). -/
def seasonAt (prev : Option Char) (l : List Char) : Option (List Char) :=
  if isBoundary prev l.head? then
    match l with
    | c0 :: c1 :: c2 :: c3 :: rest =>
      if c0 = '2' && c1 = '0' && isAsciiDigit c2 && isAsciiDigit c3 then
        match rest with
        | '/' :: d1 :: d2 :: rest2 =>
          if isAsciiDigit d1 && isAsciiDigit d2 &&
              isBoundary (some d2) rest2.head? then
            some [c0, c1, c2, c3, '/', d1, d2]
          else if isBoundary (some c3) rest.head? then some [c0, c1, c2, c3]
          else none
        | _ =>
          if isBoundary (some c3) rest.head? then some [c0, c1, c2, c3] else none
      else none
    | _ => none
  else none

/-- Left-to-right scan for the season pattern. -/
def parseSeasonAux (prev : Option Char) : List Char → Option (List Char)
  | [] => none
  | c :: cs =>
    (seasonAt prev (c :: cs)).orElse (fun _ => parseSeasonAux (some c) cs)

/-- `router.parse_season`: the first `20xx` (optionally `/yy`) year in
the text. -/
def parse_season (q : String) : Option String :=
  (parseSeasonAux none q.toList).map String.mk

/-- The ordinal words of `parse_nth`, in the source's dict order. -/
def ordWords : List (String × ℕ) :=
  [("first", 1), ("second", 2), ("third", 3), ("fourth", 4), ("fifth", 5)]

/-- Numeric value of a digit run. -/
def digitsVal (l : List Char) : ℕ :=
  l.foldl (fun a c => a * 10 + (c.toNat - 48)) 0

/-- Match `\b(\d+)(st|nd|rd|th)\b` at the head of `l` (the input is
already lower-cased). -/
def nthSuffixAt (prev : Option Char) (l : List Char) : Option ℕ :=
  if isBoundary prev l.head? then
    let run := l.takeWhile isAsciiDigit
    if run.isEmpty then none
    else
      let rest := l.drop run.length
      ["st", "nd", "rd", "th"].findSome? (fun sfx =>
        if startsWithSeq sfx.toList rest &&
            isBoundary ((rest.take 2).getLast?) ((rest.drop 2).head?) then
          some (digitsVal run)
        else none)
  else none

/-- Scan for the ordinal-suffix pattern. -/
def nthSuffixSearch (prev : Option Char) : List Char → Option ℕ
  | [] => none
  | c :: cs =>
    (nthSuffixAt prev (c :: cs)).orElse (fun _ => nthSuffixSearch (some c) cs)

/-- All `\b(\d{1,2})\b` matches, left to right (`re.findall`):
greedy two digits with a trailing boundary, else one digit; scanning
resumes after each match. -/
def smallIntsAux (prev : Option Char) : List Char → List ℕ
  | [] => []
  | [c] =>
    if isBoundary prev (some c) && isAsciiDigit c then [digitsVal [c]] else []
  | c :: b :: rest =>
    if isBoundary prev (some c) && isAsciiDigit c then
      if isAsciiDigit b && isBoundary (some b) rest.head? then
        digitsVal [c, b] :: smallIntsAux (some b) rest
      else if !isAsciiDigit b then
        digitsVal [c] :: smallIntsAux (some c) (b :: rest)
      else smallIntsAux (some c) (b :: rest)
    else smallIntsAux (some c) (b :: rest)

/-- `router.parse_nth`: ordinal words, else `N(st|nd|rd|th)`, else the
first standalone 1–2 digit integer between 1 and 10, else the
default. -/
def parse_nth (q : String) (default : ℕ) : ℕ :=
  let s := pyLowerStr q
  match ordWords.findSome? (fun wn => if hasWordCI wn.1 s then some wn.2 else none) with
  | some n => n
  | none =>
    match nthSuffixSearch none s.toList with
    | some n => n
    | none =>
      (((smallIntsAux none s.toList).filter (fun n => 1 ≤ n && n ≤ 10)).head?).getD default

/-- The phase alias table (`PHASE_ALIASES`), in dict order. -/
def PHASE_ALIASES : List (String × String) :=
  [("pp", "PP"), ("powerplay", "PP"), ("power play", "PP"), ("power-play", "PP"),
   ("middle", "Middle"), ("middle overs", "Middle"), ("middles", "Middle"),
   ("death", "Death"), ("slog", "Death"), ("end overs", "Death")]

/-- `router.detect_phase`: the first alias key occurring as a
boundary-delimited word in the lower-cased query. -/
def detect_phase (q : String) : Option String :=
  let low := pyLowerStr q
  PHASE_ALIASES.findSome? (fun kv => if hasWordCI kv.1 low then some kv.2 else none)

/-- The substring alternatives of `SUMMARY_WORDS`. -/
def SUMMARY_WORDS_L : List String :=
  ["summary", "recap", "result", "tell me about", "what happened",
   "match report", "scorecard"]

/-- The substring alternatives of `H2H_WORDS`
(`head\s*to\s*head` on a whitespace-collapsed query is either
`head to head` or `headtohead`). -/
def H2H_WORDS_L : List String :=
  ["head to head", "headtohead", "h2h", "compare", "comparison"]

/-- The substring alternatives of `SQUAD_WORDS`. -/
def SQUAD_WORDS_L : List String :=
  ["squad", "roster", "line-up", "line up", "lineup", "team list", "players list"]

/-- The substring alternatives of `STATS_WORDS`. -/
def STATS_WORDS_L : List String :=
  ["stats", "stat", "statistics", "figures", "numbers", "record", "profile"]

/-- The intent keyword table (`INTENT_KEYWORDS`). -/
def INTENT_KEYWORDS : List (String × List String) :=
  [("match_summary",
    ["summary", "recap", "result", "what happened", "match report", "scorecard"]),
   ("team_squad",
    ["squad", "roster", "lineup", "line-up", "team list", "players list"]),
   ("player_stats", ["stats", "statistics", "figures", "record", "profile"]),
   ("player_vs_team", ["vs", "against"]),
   ("head_to_head", ["head to head", "h2h", "compare", "comparison", "versus", "vs"]),
   ("best_phase_bowler",
    ["best", "top", "death", "powerplay", "power play", "middle overs", "slog",
     "end overs"])]

/-- `router.score_intent` for one intent: the maximum fuzzy
partial-ratio between the lower-cased query and the intent's
keywords.  The rapidfuzz scorer is abstracted as `scorer`. -/
def score_intent (scorer : String → String → ℕ) (q intent : String) : ℕ :=
  ((((INTENT_KEYWORDS.find? (·.1 = intent)).map (·.2)).getD []).foldl
    (fun acc k => max acc (scorer (pyLowerStr q) k)) 0)

/-- The parameter record of a routed intent: each intent fills the
fields it uses, all others stay `none` (absent keys of the Python
dict). -/
structure RouteParams where
  team_a : Option String := none
  team_b : Option String := none
  player : Option String := none
  opponent : Option String := none
  team : Option String := none
  phase : Option String := none
  scope : Option String := none
  season : Option String := none
  nth : Option ℕ := none
  deriving DecidableEq, Repr

/-- The routed intent. -/
structure Route where
  intent : String
  params : RouteParams
  deriving DecidableEq, Repr

/-- `router.route`: the priority cascade.  `scorer` abstracts
`rapidfuzz.fuzz.partial_ratio`; every guard of the cascade that uses
it does so through `score_intent`.  The extractor calls are written
inside their branches; with the source's pure extractors this agrees
with the Python code, which computes `tp`/`pvt` once before the
branches and the squad/stats extractions lazily inside them. -/
def route (scorer : String → String → ℕ) (query : String) : Route :=
  let q := clean_space query
  let season := parse_season q
  let nth := parse_nth q 1
  let step1 : Option Route :=
    if hasWordAnyCI ["best", "top"] q && hasWordAnyCI ["bowler", "bowlers"] q then
      (detect_phase q).map (fun ph =>
        { intent := "best_phase_bowler"
          params := { phase := some ph
                      scope := some (if season.isSome then "season" else "career")
                      season := season } })
    else none
  let tp := extract_teams_pair q
  let pvt := extract_player_vs_team q
  let step2 : Option Route :=
    match tp with
    | some ab =>
      if containsAnyCI SUMMARY_WORDS_L q || hasWordCI "match" q then
        some { intent := "match_summary"
               params := { team_a := some (normalize_team_token ab.1)
                           team_b := some (normalize_team_token ab.2)
                           season := season
                           nth := some nth } }
      else none
    | none => none
  let step3 : Option Route :=
    pvt.map (fun po =>
      { intent := "player_vs_team"
        params := { player := some po.1
                    opponent := some po.2
                    scope := some (if season.isSome then "season" else "career")
                    season := season } })
  let step4 : Option Route :=
    match extract_team_for_squad q with
    | some t =>
      if 55 ≤ score_intent scorer q "team_squad" || containsAnyCI SQUAD_WORDS_L q then
        some { intent := "team_squad"
               params := { team := some (normalize_team_token t), season := season } }
      else none
    | none => none
  let step5 : Option Route :=
    match extract_player_for_stats q with
    | some p =>
      if 55 ≤ score_intent scorer q "player_stats" || containsAnyCI STATS_WORDS_L q then
        some { intent := "player_stats"
               params := { player := some p
                           scope := some (if season.isSome then "season" else "career")
                           season := season } }
      else none
    | none => none
  let step6 : Option Route :=
    match tp with
    | some ab =>
      if 40 ≤ score_intent scorer q "head_to_head" || containsAnyCI H2H_WORDS_L q ||
          strContains (pyLowerStr q) " vs " || strContains (pyLowerStr q) " between " ||
          strContains q "&" then
        some { intent := "head_to_head"
               params := { team_a := some (normalize_team_token ab.1)
                           team_b := some (normalize_team_token ab.2)
                           scope := some (if season.isSome then "season" else "career")
                           season := season } }
      else none
    | none => none
  ((((((step1.orElse (fun _ => step2)).orElse (fun _ => step3)).orElse
      (fun _ => step4)).orElse (fun _ => step5)).orElse (fun _ => step6)).getD
    { intent := "unknown", params := {} })

/-! ## Specification-side definitions

Definitions taken from the *specification's words* (not from the
source), used to compare spec and code where they disagree, and to
express the claims' ranking chains explicitly. -/

/-- Modelled from the spec: "balls faced = legal balls only" — the
number of *legal* deliveries the player faced in the scoped frame. -/
def specLegalBallsFaced (df : List Delivery) (player : String) : ℕ :=
  legalBalls (df.filter (·.striker = player))

/-- Modelled from the spec: "legal balls bowled" — the number of
legal deliveries the player bowled in the scoped frame. -/
def specLegalBallsBowled (df : List Delivery) (player : String) : ℕ :=
  legalBalls (df.filter (·.bowler = player))

/-- Strict priority of `x` over `y` in a `DESC NULLS LAST` ranking of
a nullable column. -/
def optDescRankLt : Option ℕ → Option ℕ → Bool
  | some a, some b => b < a
  | some _, none => true
  | none, _ => false

/-- The explicit tie-break chain of the `head_to_head` batting star
(claim C6): more runs wins; equal runs → higher average (nulls last)
wins; averages tied → higher strike rate (nulls last) wins; then fewer
balls; then name ascending. -/
def batStrictlyBetter (x y : H2HBatRow) : Bool :=
  (y.runs < x.runs) ||
  (x.runs = y.runs && optDescRankLt x.avg y.avg) ||
  (x.runs = y.runs && x.avg = y.avg && optDescRankLt x.sr y.sr) ||
  (x.runs = y.runs && x.avg = y.avg && x.sr = y.sr && x.balls < y.balls) ||
  (x.runs = y.runs && x.avg = y.avg && x.sr = y.sr && x.balls = y.balls &&
    strCmp x.batter y.batter = .lt)

/-! ## Concrete example data

Small delivery/meta rows used by the counterexamples and witnesses.
Field order of `Delivery`: match id, season, innings, batting team,
bowling team, striker, bowler, runs off the bat, total runs, wides,
no-balls, wicket type, dismissal kind, player dismissed, phase. -/

/-- A wide faced by "P" in 2011 (one run, no legal ball). -/
def exWide : Delivery :=
  ⟨1, "2011", 1, "T1", "T2", "P", "Q", 0, 1, some 1, none, none, none, none, "PP"⟩

/-- A boundary in 2012 on which "P" was also bowled by "R". -/
def exBowled : Delivery :=
  ⟨2, "2012", 1, "T1", "T3", "P", "R", 4, 4, none, none, some "bowled",
   some "bowled", some "P", "PP"⟩

/-- A run-out dismissal delivery. -/
def exRunOut : Delivery :=
  ⟨3, "2012", 2, "T1", "T3", "S", "R", 1, 1, none, none, some "run out",
   some "run out", some "S", "Middle"⟩

/-- A Death-phase delivery of bowler "A" conceding two runs. -/
def exPhA : Delivery :=
  ⟨1, "2016", 1, "T1", "T2", "S", "A", 2, 2, none, none, none, none, none, "Death"⟩

/-- A Death-phase dot ball of bowler "B". -/
def exPhB : Delivery :=
  ⟨1, "2016", 1, "T1", "T2", "S", "B", 0, 0, none, none, none, none, none, "Death"⟩

/-- Batter "X" scores five. -/
def exBatX1 : Delivery :=
  ⟨1, "2011", 1, "T1", "T2", "X", "Q", 5, 5, none, none, none, none, none, "PP"⟩

/-- Batter "X" scores five and is dismissed. -/
def exBatX2 : Delivery :=
  ⟨1, "2011", 1, "T1", "T2", "X", "Q", 5, 5, none, none, some "bowled",
   some "bowled", some "X", "PP"⟩

/-- Batter "Y" scores five and is dismissed (first time). -/
def exBatY1 : Delivery :=
  ⟨1, "2011", 1, "T1", "T2", "Y", "Q", 5, 5, none, none, some "bowled",
   some "bowled", some "Y", "PP"⟩

/-- Batter "Y" scores five and is dismissed (second time). -/
def exBatY2 : Delivery :=
  ⟨1, "2011", 1, "T1", "T2", "Y", "Q", 5, 5, none, none, some "bowled",
   some "bowled", some "Y", "PP"⟩

/-- The `player_stats` payload for the lone-wide example. -/
def exStatsWide : PlayerStats :=
  { batting := { matchesPlayed := 1, inns := 1, runs := 0, balls := 1, fours := 0,
                 sixes := 0, sr := some 0, average := none }
    bowling := { matchesPlayed := 0, overs := some 0, wickets := 0,
                 runs_conceded := 0, economy := none }
    teams := ["T1"]
    last_team := none
    matchups := { nemesis_bowler := none, favourite_bowler := none,
                  most_dismissed_batter := none, worst_vs_batter := none } }

/-- The single phase-leaderboard row of the Death-phase example:
bowler "A" with six legal balls. -/
def exPhaseRowA : PhaseBowlerRow :=
  { bowler := "A", legal_balls := 6, runs_conceded := 12, wickets := 0,
    matchesPlayed := 1, dots := 0, boundaries := 0, economy := some 1200,
    average := none, strike_rate := none, dot_pct := some 0, boundary_pct := some 0 }

/-- The `bat_sql` row of batter "X" in the example head-to-head data:
ten runs, one dismissal, average 10.00. -/
def exBatRowX : H2HBatRow :=
  { batter := "X", team_for := "T1", team_against := "T2", runs := 10, balls := 2,
    outs := 1, hundreds := 0, fifties := 0, sr := some 50000, avg := some 1000 }

/-- The `bat_sql` row of batter "Y" in the example head-to-head data:
ten runs, two dismissals, average 5.00. -/
def exBatRowY : H2HBatRow :=
  { batter := "Y", team_for := "T1", team_against := "T2", runs := 10, balls := 2,
    outs := 2, hundreds := 0, fifties := 0, sr := some 50000, avg := some 500 }

/-- `player_stats` over `[exWide, exBowled]` for "P", season scope
2011: the batting frame is restricted to 2011, the matchups are not
(the nemesis bowler "R" appears only in 2012). -/
def exStatsSeasonP : PlayerStats :=
  { batting := { matchesPlayed := 1, inns := 1, runs := 0, balls := 1, fours := 0,
                 sixes := 0, sr := some 0, average := none }
    bowling := { matchesPlayed := 0, overs := some 0, wickets := 0,
                 runs_conceded := 0, economy := none }
    teams := ["T1"]
    last_team := none
    matchups := { nemesis_bowler :=
                    some { name := "R", outs := 1, balls := 1, economy_against := some 2400 }
                  favourite_bowler := none
                  most_dismissed_batter := none
                  worst_vs_batter := none } }

/-- `player_stats` over `[exWide, exBowled]` for "P", career scope. -/
def exStatsCareerP : PlayerStats :=
  { batting := { matchesPlayed := 2, inns := 1, runs := 4, balls := 2, fours := 1,
                 sixes := 0, sr := some 20000, average := some 400 }
    bowling := { matchesPlayed := 0, overs := some 0, wickets := 0,
                 runs_conceded := 0, economy := none }
    teams := ["T1"]
    last_team := none
    matchups := { nemesis_bowler :=
                    some { name := "R", outs := 1, balls := 1, economy_against := some 2400 }
                  favourite_bowler := none
                  most_dismissed_batter := none
                  worst_vs_batter := none } }

/-! # Theorems -/

/-! ## Generic list lemmas -/

/-- Partition of a filtered count by a second test. -/
theorem length_filter_partition (l : List α) (p q : α → Bool) :
    (l.filter fun x => p x && q x).length + (l.filter fun x => p x && !q x).length
      = (l.filter p).length := by
  induction l with
  | nil => rfl
  | cons a t ih =>
    by_cases hp : p a <;> by_cases hq : q a <;> simp [List.filter, hp, hq] <;> omega

/-! ## Ordering and comparator lemmas -/

theorem ord_then_lt {a b : Ordering} :
    a.then b = .lt ↔ a = .lt ∨ (a = .eq ∧ b = .lt) := by
  cases a <;> simp [Ordering.then]

theorem ord_then_eq {a b : Ordering} :
    a.then b = .eq ↔ a = .eq ∧ b = .eq := by
  cases a <;> simp [Ordering.then]

theorem ord_swap_then {a b : Ordering} :
    (a.then b).swap = a.swap.then b.swap := by
  cases a <;> rfl

theorem ord_swap_swap {a : Ordering} : a.swap.swap = a := by cases a <;> rfl

theorem ord_isLE_iff {a : Ordering} : a.isLE = true ↔ a ≠ .gt := by
  cases a <;> simp [Ordering.isLE]

theorem natCmp_swap (a b : ℕ) : natCmp a b = (natCmp b a).swap := by
  unfold natCmp
  rcases Nat.lt_trichotomy a b with h | h | h <;>
    simp [h, Nat.lt_asymm, Nat.ne_of_lt, Nat.ne_of_gt, Ordering.swap] <;> omega

theorem natCmp_lt_iff {a b : ℕ} : natCmp a b = .lt ↔ a < b := by
  unfold natCmp; split_ifs <;> simp_all

theorem natCmp_eq_iff {a b : ℕ} : natCmp a b = .eq ↔ a = b := by
  unfold natCmp; split_ifs <;> simp_all <;> omega

theorem natCmp_trans {a b c : ℕ} (h₁ : natCmp a b = .lt) (h₂ : natCmp b c = .lt) :
    natCmp a c = .lt := by
  rw [natCmp_lt_iff] at *; omega

/-- `natCmp` is determined by how the two sides compare; used to
transport comparisons along cross-multiplication rewrites. -/
theorem natCmp_congr {a b a' b' : ℕ} (hlt : a < b ↔ a' < b') (heq : a = b ↔ a' = b') :
    natCmp a b = natCmp a' b' := by
  unfold natCmp
  rcases Nat.lt_trichotomy a b with h | h | h <;>
    [skip; skip; skip] <;> split_ifs <;> simp_all <;> omega

theorem charsCmp_swap (a b : List Char) : charsCmp a b = (charsCmp b a).swap := by
  induction a generalizing b with
  | nil => cases b <;> rfl
  | cons x xs ih =>
    cases b with
    | nil => rfl
    | cons y ys =>
      simp only [charsCmp, ord_swap_then, ← natCmp_swap, ← ih]

theorem char_toNat_inj {x y : Char} (h : x.toNat = y.toNat) : x = y := by
  rw [← Char.ofNat_toNat x, ← Char.ofNat_toNat y, h]

theorem charsCmp_eq_iff {a b : List Char} : charsCmp a b = .eq ↔ a = b := by
  induction a generalizing b with
  | nil => cases b <;> simp [charsCmp]
  | cons x xs ih =>
    cases b with
    | nil => simp [charsCmp]
    | cons y ys =>
      simp only [charsCmp, ord_then_eq, natCmp_eq_iff, ih, List.cons.injEq]
      constructor
      · rintro ⟨h1, h2⟩; exact ⟨char_toNat_inj h1, h2⟩
      · rintro ⟨h1, h2⟩; exact ⟨by rw [h1], h2⟩

theorem charsCmp_trans {a b c : List Char} (h₁ : charsCmp a b = .lt)
    (h₂ : charsCmp b c = .lt) : charsCmp a c = .lt := by
  induction a generalizing b c with
  | nil =>
    cases b with
    | nil => exact absurd h₁ (by simp [charsCmp])
    | cons y ys => cases c with
      | nil => exact absurd h₂ (by simp [charsCmp])
      | cons z zs => simp [charsCmp]
  | cons x xs ih =>
    cases b with
    | nil => exact absurd h₁ (by simp [charsCmp])
    | cons y ys =>
      cases c with
      | nil => exact absurd h₂ (by simp [charsCmp])
      | cons z zs =>
        simp only [charsCmp, ord_then_lt, natCmp_lt_iff, natCmp_eq_iff] at *
        rcases h₁ with h₁ | ⟨h₁e, h₁r⟩ <;> rcases h₂ with h₂ | ⟨h₂e, h₂r⟩
        · exact Or.inl (h₁.trans h₂)
        · exact Or.inl (h₂e ▸ h₁)
        · exact Or.inl (h₁e ▸ h₂)
        · exact Or.inr ⟨h₁e.trans h₂e, ih h₁r h₂r⟩

theorem strCmp_swap (a b : String) : strCmp a b = (strCmp b a).swap :=
  charsCmp_swap _ _

theorem strCmp_eq_iff {a b : String} : strCmp a b = .eq ↔ a = b := by
  unfold strCmp
  rw [charsCmp_eq_iff]
  constructor
  · intro h
    cases a; cases b
    simpa [String.toList] using congrArg String.mk h
  · rintro rfl; rfl

theorem strCmp_trans {a b c : String} (h₁ : strCmp a b = .lt) (h₂ : strCmp b c = .lt) :
    strCmp a c = .lt := charsCmp_trans h₁ h₂

/-! ## Lawfulness of the row comparators -/

/-- Lexicographic composition preserves lawfulness. -/
theorem lawCmpOn_then {P : α → Prop} {c₁ c₂ : α → α → Ordering}
    (h₁ : LawCmpOn P c₁) (h₂ : LawCmpOn P c₂) :
    LawCmpOn P (fun x y => (c₁ x y).then (c₂ x y)) := by
  obtain ⟨s₁, t₁, e₁, f₁⟩ := h₁
  obtain ⟨s₂, t₂, e₂, f₂⟩ := h₂
  refine ⟨?_, ?_, ?_, ?_⟩
  · intro x y hx hy
    rw [ord_swap_then, ← s₁ x y hx hy, ← s₂ x y hx hy]
  · intro x y z hx hy hz hxy hyz
    rw [ord_then_lt] at hxy hyz ⊢
    rcases hxy with hxy | ⟨hxy, hxy₂⟩ <;> rcases hyz with hyz | ⟨hyz, hyz₂⟩
    · exact Or.inl (t₁ x y z hx hy hz hxy hyz)
    · exact Or.inl ((f₁ x y z hx hy hz hyz) ▸ hxy)
    · exact Or.inl ((e₁ x y z hx hy hz hxy) ▸ hyz)
    · exact Or.inr ⟨(e₁ x y z hx hy hz hxy) ▸ hyz, t₂ x y z hx hy hz hxy₂ hyz₂⟩
  · intro x y z hx hy hz hxy
    rw [ord_then_eq] at hxy
    show (c₁ y z).then (c₂ y z) = (c₁ x z).then (c₂ x z)
    rw [e₁ x y z hx hy hz hxy.1, e₂ x y z hx hy hz hxy.2]
  · intro x y z hx hy hz hyz
    rw [ord_then_eq] at hyz
    show (c₁ x y).then (c₂ x y) = (c₁ x z).then (c₂ x z)
    rw [f₁ x y z hx hy hz hyz.1, f₂ x y z hx hy hz hyz.2]

/-- A comparator obtained by pulling an equality-reflecting
comparison back along a key function is lawful. -/
theorem lawCmpOn_of_key {P : α → Prop} (f : α → β) (c : β → β → Ordering)
    (hswap : ∀ a b, c a b = (c b a).swap)
    (htrans : ∀ a b d, c a b = .lt → c b d = .lt → c a d = .lt)
    (heq : ∀ a b, c a b = .eq → a = b) :
    LawCmpOn P (fun x y => c (f x) (f y)) := by
  refine ⟨fun x y _ _ => hswap _ _, fun x y z _ _ _ => htrans _ _ _, ?_, ?_⟩
  · intro x y z _ _ _ hxy
    show c (f y) (f z) = c (f x) (f z)
    rw [heq _ _ hxy]
  · intro x y z _ _ _ hyz
    show c (f x) (f y) = c (f x) (f z)
    rw [heq _ _ hyz]

theorem natCmpDesc_swap (a b : ℕ) : natCmpDesc a b = (natCmpDesc b a).swap :=
  natCmp_swap b a

theorem natCmpDesc_eq_iff {a b : ℕ} : natCmpDesc a b = .eq ↔ a = b := by
  unfold natCmpDesc
  rw [natCmp_eq_iff, eq_comm]

theorem optCmpNL_swap {c : β → β → Ordering} (hswap : ∀ a b, c a b = (c b a).swap)
    (a b : Option β) : optCmpNL c a b = (optCmpNL c b a).swap := by
  cases a <;> cases b <;> simp [optCmpNL, Ordering.swap] <;> exact hswap _ _

theorem optCmpNL_eq_iff {c : β → β → Ordering} (heq : ∀ a b, c a b = .eq ↔ a = b)
    {a b : Option β} : optCmpNL c a b = .eq ↔ a = b := by
  cases a <;> cases b <;> simp [optCmpNL] <;> exact heq _ _

theorem optCmpNL_trans {c : β → β → Ordering}
    (ht : ∀ a b d, c a b = .lt → c b d = .lt → c a d = .lt)
    {a b d : Option β} (h₁ : optCmpNL c a b = .lt) (h₂ : optCmpNL c b d = .lt) :
    optCmpNL c a d = .lt := by
  cases a <;> cases b <;> cases d <;> simp_all [optCmpNL]
  exact ht _ _ _ h₁ h₂

/-- Lawfulness for a `NULLS LAST` nullable key whose inner comparison
reflects equality. -/
theorem lawCmpOn_optKey {P : α → Prop} (f : α → Option β) (c : β → β → Ordering)
    (hswap : ∀ a b, c a b = (c b a).swap)
    (htrans : ∀ a b d, c a b = .lt → c b d = .lt → c a d = .lt)
    (heq : ∀ a b, c a b = .eq ↔ a = b) :
    LawCmpOn P (fun x y => optCmpNL c (f x) (f y)) :=
  lawCmpOn_of_key f (optCmpNL c) (optCmpNL_swap hswap) (fun _ _ _ => optCmpNL_trans htrans)
    (fun _ _ h => (optCmpNL_eq_iff heq).mp h)

/-- Cross-multiplication transitivity for ratios of naturals
(`a/b < c/d` and `c/d < e/f` give `a/b < e/f`; stated so that it holds
for all naturals, degenerate denominators included). -/
theorem fracLt_trans {a b c d e f : ℕ} (h₁ : a * d < c * b) (h₂ : c * f < e * d) :
    a * f < e * b := by
  have hb : 0 < b := by
    rcases Nat.eq_zero_or_pos b with hb | hb
    · subst hb; omega
    · exact hb
  rcases Nat.eq_zero_or_pos f with hf | hf
  · subst hf
    have hed : 0 < e * d := by omega
    have he : 0 < e := by
      rcases Nat.eq_zero_or_pos e with h | h
      · subst h; omega
      · exact h
    have : 0 < e * b := Nat.mul_pos he hb
    omega
  · have h1f : a * d * f < c * b * f := by
      exact Nat.mul_lt_mul_of_lt_of_le h₁ (Nat.le_refl f) hf
    have h2b : c * f * b < e * d * b := by
      exact Nat.mul_lt_mul_of_lt_of_le h₂ (Nat.le_refl b) hb
    have key : a * f * d < e * b * d := by
      calc a * f * d = a * d * f := by ring
        _ < c * b * f := h1f
        _ = c * f * b := by ring
        _ < e * d * b := h2b
        _ = e * b * d := by ring
    exact Nat.lt_of_mul_lt_mul_right key

/-- Transport a cross-multiplied comparison along an equality
`a/b = c/d` of the left ratio (positive denominators). -/
theorem fracEq_congr_left {a b c d e f : ℕ} (hb : 0 < b) (hd : 0 < d)
    (h : a * d = c * b) : natCmp (c * f) (e * d) = natCmp (a * f) (e * b) := by
  apply natCmp_congr
  · constructor
    · intro hlt
      have : c * f * b < e * d * b := Nat.mul_lt_mul_of_lt_of_le hlt (Nat.le_refl b) hb
      have key : a * f * d < e * b * d := by
        calc a * f * d = a * d * f := by ring
          _ = c * b * f := by rw [h]
          _ = c * f * b := by ring
          _ < e * d * b := this
          _ = e * b * d := by ring
      exact Nat.lt_of_mul_lt_mul_right key
    · intro hlt
      have : a * f * d < e * b * d := Nat.mul_lt_mul_of_lt_of_le hlt (Nat.le_refl d) hd
      have key : c * f * b < e * d * b := by
        calc c * f * b = c * b * f := by ring
          _ = a * d * f := by rw [h]
          _ = a * f * d := by ring
          _ < e * b * d := this
          _ = e * d * b := by ring
      exact Nat.lt_of_mul_lt_mul_right key
  · constructor
    · intro heq
      have key : a * f * d = e * b * d := by
        calc a * f * d = a * d * f := by ring
          _ = c * b * f := by rw [h]
          _ = c * f * b := by ring
          _ = e * d * b := by rw [heq]
          _ = e * b * d := by ring
      exact Nat.eq_of_mul_eq_mul_right hd key
    · intro heq
      have key : c * f * b = e * d * b := by
        calc c * f * b = c * b * f := by ring
          _ = a * d * f := by rw [h]
          _ = a * f * d := by ring
          _ = e * b * d := by rw [heq]
          _ = e * d * b := by ring
      exact Nat.eq_of_mul_eq_mul_right hb key

/-- Transport a cross-multiplied comparison along an equality
`a/b = c/d` of the right ratio (positive denominators). -/
theorem fracEq_congr_right {a b c d g h : ℕ} (hb : 0 < b) (hd : 0 < d)
    (heq : a * d = c * b) : natCmp (g * b) (a * h) = natCmp (g * d) (c * h) := by
  apply natCmp_congr
  · constructor
    · intro hlt
      have : g * b * d < a * h * d := Nat.mul_lt_mul_of_lt_of_le hlt (Nat.le_refl d) hd
      have key : g * d * b < c * h * b := by
        calc g * d * b = g * b * d := by ring
          _ < a * h * d := this
          _ = a * d * h := by ring
          _ = c * b * h := by rw [heq]
          _ = c * h * b := by ring
      exact Nat.lt_of_mul_lt_mul_right key
    · intro hlt
      have : g * d * b < c * h * b := Nat.mul_lt_mul_of_lt_of_le hlt (Nat.le_refl b) hb
      have key : g * b * d < a * h * d := by
        calc g * b * d = g * d * b := by ring
          _ < c * h * b := this
          _ = c * b * h := by ring
          _ = a * d * h := by rw [heq]
          _ = a * h * d := by ring
      exact Nat.lt_of_mul_lt_mul_right key
  · constructor
    · intro h2
      have key : g * d * b = c * h * b := by
        calc g * d * b = g * b * d := by ring
          _ = a * h * d := by rw [h2]
          _ = a * d * h := by ring
          _ = c * b * h := by rw [heq]
          _ = c * h * b := by ring
      exact Nat.eq_of_mul_eq_mul_right hb key
    · intro h2
      have key : g * b * d = a * h * d := by
        calc g * b * d = g * d * b := by ring
          _ = c * h * b := by rw [h2]
          _ = c * b * h := by ring
          _ = a * d * h := by rw [heq]
          _ = a * h * d := by ring
      exact Nat.eq_of_mul_eq_mul_right hd key

theorem fracCmp_swap (a b : ℕ × ℕ) : fracCmp a b = (fracCmp b a).swap :=
  natCmp_swap _ _

theorem fracCmp_trans {a b c : ℕ × ℕ} (h₁ : fracCmp a b = .lt) (h₂ : fracCmp b c = .lt) :
    fracCmp a c = .lt := by
  unfold fracCmp at *
  rw [natCmp_lt_iff] at h₁ h₂
  exact natCmp_lt_iff.mpr (fracLt_trans h₁ h₂)

/-- Lawfulness for an `ASC NULLS LAST` ratio key with positive
denominators. -/
theorem lawCmpOn_fracKey {P : α → Prop} (f : α → Option (ℕ × ℕ))
    (hf : ∀ x p, f x = some p → 0 < p.2) :
    LawCmpOn P (fun x y => optCmpNL fracCmp (f x) (f y)) := by
  refine ⟨?_, ?_, ?_, ?_⟩
  · intro x y _ _
    exact optCmpNL_swap fracCmp_swap _ _
  · intro x y z _ _ _ h₁ h₂
    dsimp only at h₁ h₂ ⊢
    exact optCmpNL_trans (c := fracCmp) (fun _ _ _ => fracCmp_trans) h₁ h₂
  · intro x y z _ _ _ hxy
    dsimp only at hxy ⊢
    cases hx : f x with
    | none =>
      cases hy : f y with
      | none => rfl
      | some p => rw [hx, hy] at hxy; simp [optCmpNL] at hxy
    | some p =>
      cases hy : f y with
      | none => rw [hx, hy] at hxy; simp [optCmpNL] at hxy
      | some q =>
        rw [hx, hy] at hxy
        obtain ⟨a, b⟩ := p
        obtain ⟨c, d⟩ := q
        have hb : 0 < b := hf x (a, b) hx
        have hd : 0 < d := hf y (c, d) hy
        have habcd : a * d = c * b := by
          simpa [optCmpNL, fracCmp, natCmp_eq_iff] using hxy
        cases hz : f z with
        | none => rfl
        | some r =>
          obtain ⟨e, f'⟩ := r
          simpa [optCmpNL, fracCmp] using fracEq_congr_left hb hd habcd
  · intro x y z _ _ _ hyz
    dsimp only at hyz ⊢
    cases hy : f y with
    | none =>
      cases hz : f z with
      | none => rfl
      | some p => rw [hy, hz] at hyz; simp [optCmpNL] at hyz
    | some p =>
      cases hz : f z with
      | none => rw [hy, hz] at hyz; simp [optCmpNL] at hyz
      | some q =>
        rw [hy, hz] at hyz
        obtain ⟨a, b⟩ := p
        obtain ⟨c, d⟩ := q
        have hb : 0 < b := hf y (a, b) hy
        have hd : 0 < d := hf z (c, d) hz
        have habcd : a * d = c * b := by
          simpa [optCmpNL, fracCmp, natCmp_eq_iff] using hyz
        cases hx : f x with
        | none => rfl
        | some r =>
          obtain ⟨g, h⟩ := r
          simpa [optCmpNL, fracCmp] using fracEq_congr_right hb hd habcd

theorem natCmpDesc_trans {a b c : ℕ} (h₁ : natCmpDesc a b = .lt)
    (h₂ : natCmpDesc b c = .lt) : natCmpDesc a c = .lt := natCmp_trans h₂ h₁

/-- The `head_to_head` batting comparator is lawful. -/
theorem lawCmp_h2hBatCmp : LawCmp h2hBatCmp := by
  unfold LawCmp h2hBatCmp
  exact lawCmpOn_then
    (lawCmpOn_then
      (lawCmpOn_then
        (lawCmpOn_of_key (·.runs) natCmpDesc natCmpDesc_swap
          (fun _ _ _ => natCmpDesc_trans) (fun _ _ h => natCmpDesc_eq_iff.mp h))
        (lawCmpOn_optKey (·.avg) natCmpDesc natCmpDesc_swap
          (fun _ _ _ => natCmpDesc_trans) (fun _ _ => natCmpDesc_eq_iff)))
      (lawCmpOn_optKey (·.sr) natCmpDesc natCmpDesc_swap
        (fun _ _ _ => natCmpDesc_trans) (fun _ _ => natCmpDesc_eq_iff)))
    (lawCmpOn_then
      (lawCmpOn_of_key (·.balls) natCmp natCmp_swap
        (fun _ _ _ => natCmp_trans) (fun _ _ h => natCmp_eq_iff.mp h))
      (lawCmpOn_of_key (·.batter) strCmp strCmp_swap
        (fun _ _ _ => strCmp_trans) (fun _ _ h => strCmp_eq_iff.mp h)))

/-- The `best_phase_bowlers` leaderboard comparator is lawful. -/
theorem lawCmp_phaseBowlerCmp : LawCmp phaseBowlerCmp := by
  unfold LawCmp phaseBowlerCmp
  refine lawCmpOn_then (lawCmpOn_then (lawCmpOn_then ?_ ?_) ?_) (lawCmpOn_then ?_ ?_)
  · exact lawCmpOn_fracKey pbEconFrac (fun r p hp => by
      unfold pbEconFrac at hp
      by_cases h : r.legal_balls = 0
      · simp [h] at hp
      · rw [if_neg h] at hp
        cases hp
        exact Nat.pos_of_ne_zero h)
  · exact lawCmpOn_fracKey pbAvgFrac (fun r p hp => by
      unfold pbAvgFrac at hp
      by_cases h : r.wickets = 0
      · simp [h] at hp
      · rw [if_neg h] at hp
        cases hp
        exact Nat.pos_of_ne_zero h)
  · exact lawCmpOn_fracKey pbSrFrac (fun r p hp => by
      unfold pbSrFrac at hp
      by_cases h : r.wickets = 0
      · simp [h] at hp
      · rw [if_neg h] at hp
        cases hp
        exact Nat.pos_of_ne_zero h)
  · exact lawCmpOn_of_key (fun r : PhaseBowlerRow => r.legal_balls) natCmpDesc
      natCmpDesc_swap (fun _ _ _ => natCmpDesc_trans) (fun _ _ h => natCmpDesc_eq_iff.mp h)
  · exact lawCmpOn_of_key (fun r : PhaseBowlerRow => r.bowler) strCmp strCmp_swap
      (fun _ _ _ => strCmp_trans) (fun _ _ h => strCmp_eq_iff.mp h)

/-! ## Sorting lemmas -/

theorem mem_insertLe {le : α → α → Bool} {a b : α} {l : List α} :
    b ∈ insertLe le a l ↔ b = a ∨ b ∈ l := by
  induction l with
  | nil => simp [insertLe]
  | cons x t ih =>
    unfold insertLe
    by_cases h : le a x <;> simp [h, ih] <;> tauto

theorem mem_insSort {le : α → α → Bool} {b : α} {l : List α} :
    b ∈ insSort le l ↔ b ∈ l := by
  induction l with
  | nil => simp [insSort]
  | cons x t ih => simp [insSort, mem_insertLe, ih]

theorem insertLe_pairwise {le : α → α → Bool}
    (htotal : ∀ x y, le x y || le y x)
    (htrans : ∀ x y z, le x y = true → le y z = true → le x z = true)
    {a : α} {l : List α} (hl : l.Pairwise (fun x y => le x y = true)) :
    (insertLe le a l).Pairwise (fun x y => le x y = true) := by
  induction l with
  | nil => simp [insertLe]
  | cons b t ih =>
    rw [List.pairwise_cons] at hl
    unfold insertLe
    by_cases h : le a b
    · rw [if_pos h, List.pairwise_cons]
      refine ⟨?_, List.pairwise_cons.mpr hl⟩
      intro x hx
      rcases List.mem_cons.mp hx with hx | hx
      · exact hx ▸ h
      · exact htrans a b x h (hl.1 x hx)
    · rw [if_neg h, List.pairwise_cons]
      refine ⟨?_, ih hl.2⟩
      intro x hx
      rcases mem_insertLe.mp hx with hx | hx
      · subst hx
        rcases (by simpa using htotal x b : le x b = true ∨ le b x = true) with h' | h'
        · exact absurd h' h
        · exact h'
      · exact hl.1 x hx

theorem insSort_pairwise {le : α → α → Bool}
    (htotal : ∀ x y, le x y || le y x)
    (htrans : ∀ x y z, le x y = true → le y z = true → le x z = true)
    (l : List α) : (insSort le l).Pairwise (fun x y => le x y = true) := by
  induction l with
  | nil => simp [insSort]
  | cons a t ih => exact insertLe_pairwise htotal htrans ih

/-- The transitivity of `isLE` induced by a lawful comparator. -/
theorem lawCmp_isLE_trans {c : α → α → Ordering} (h : LawCmp c) :
    ∀ x y z, (c x y).isLE = true → (c y z).isLE = true → (c x z).isLE = true := by
  obtain ⟨hs, ht, he, hf⟩ := h
  intro a b d hab hbd
  rw [ord_isLE_iff] at *
  intro hcontra
  rcases hx : c a b with _ | _ | _
  · rcases hy : c b d with _ | _ | _
    · exact absurd (ht a b d trivial trivial trivial hx hy) (hcontra ▸ (by simp))
    · exact absurd ((hf a b d trivial trivial trivial hy) ▸ hx) (hcontra ▸ (by simp))
    · exact hbd (by rw [hy])
  · exact absurd ((he a b d trivial trivial trivial hx).symm ▸ hcontra) hbd
  · exact hab (by rw [hx])

/-- The totality of `isLE` induced by a lawful comparator. -/
theorem lawCmp_isLE_total {c : α → α → Ordering} (h : LawCmp c) :
    ∀ x y, (c x y).isLE || (c y x).isLE := by
  obtain ⟨hs, _, _, _⟩ := h
  intro a b
  rcases hx : c a b with _ | _ | _ <;> simp [Ordering.isLE]
  have := hs a b trivial trivial
  rw [hx] at this
  rcases hy : c b a with _ | _ | _ <;> simp [hy, Ordering.swap] at this ⊢

/-- A lawful comparator sorts: the output of `sortByCmp` is pairwise
`isLE`-ordered. -/
theorem sortByCmp_pairwise {c : α → α → Ordering} (h : LawCmp c) (l : List α) :
    (sortByCmp c l).Pairwise (fun a b => (c a b).isLE = true) :=
  insSort_pairwise (lawCmp_isLE_total h) (lawCmp_isLE_trans h) l

theorem mem_sortByCmp {c : α → α → Ordering} {a : α} {l : List α} :
    a ∈ sortByCmp c l ↔ a ∈ l := mem_insSort

/-- A reflexivity consequence of antisymmetry: a lawful comparator
never answers `.gt` on equal arguments. -/
theorem lawCmp_isLE_refl {c : α → α → Ordering} (h : LawCmp c) (a : α) :
    (c a a).isLE = true := by
  obtain ⟨hs, _, _, _⟩ := h
  have := hs a a trivial trivial
  rcases hx : c a a with _ | _ | _ <;> simp [Ordering.isLE] <;>
    rw [hx] at this <;> simp [Ordering.swap] at this

/-- The head of a lawfully sorted list is `isLE` every member of the
input. -/
theorem sortByCmp_head_le {c : α → α → Ordering} (h : LawCmp c) {l : List α} {s : α}
    (hh : (sortByCmp c l).head? = some s) {x : α} (hx : x ∈ l) :
    (c s x).isLE = true := by
  have hp := sortByCmp_pairwise h l
  have hx' : x ∈ sortByCmp c l := mem_sortByCmp.mpr hx
  cases hsort : sortByCmp c l with
  | nil => rw [hsort] at hx'; cases hx'
  | cons a t =>
    rw [hsort] at hh hp hx'
    have hsa : a = s := by simpa using hh
    subst hsa
    rcases hx' with _ | hx'
    · exact lawCmp_isLE_refl h _
    · exact (List.pairwise_cons.mp hp).1 x (by assumption)

/-! ## Normalizer lemmas (towards claim C8)

`norm` is idempotent because its output is in *normal form*: every
whitespace character is a single `' '`, no two spaces are adjacent, no
space sits at either end, the punctuation characters are gone, and
every character is fixed by the lower-case map.  Each stage of `norm`
is the identity on strings in normal form. -/

/-- Characters of a collapsed list: a space it introduced, or a
non-whitespace character of the input. -/
theorem mem_collapseAux {b : Bool} {l : List Char} {c : Char} (h : c ∈ collapseAux b l) :
    c = ' ' ∨ (c ∈ l ∧ isPySpace c = false) := by
  induction l generalizing b with
  | nil => cases b <;> simp [collapseAux] at h
  | cons a t ih =>
    by_cases ha : isPySpace a
    · cases b
      · rw [show collapseAux false (a :: t) = ' ' :: collapseAux true t by
          simp [collapseAux, ha]] at h
        rcases List.mem_cons.mp h with h | h
        · exact Or.inl h
        · rcases ih h with h' | h'
          · exact Or.inl h'
          · exact Or.inr ⟨List.mem_cons_of_mem _ h'.1, h'.2⟩
      · rw [show collapseAux true (a :: t) = collapseAux true t by
          simp [collapseAux, ha]] at h
        rcases ih h with h' | h'
        · exact Or.inl h'
        · exact Or.inr ⟨List.mem_cons_of_mem _ h'.1, h'.2⟩
    · have hrw : ∀ b', collapseAux b' (a :: t) = a :: collapseAux false t := by
        intro b'; cases b' <;> simp [collapseAux, ha]
      rw [hrw b] at h
      rcases List.mem_cons.mp h with h | h
      · exact Or.inr ⟨h ▸ List.mem_cons_self _ _, h ▸ Bool.of_not_eq_true ha⟩
      · rcases ih h with h' | h'
        · exact Or.inl h'
        · exact Or.inr ⟨List.mem_cons_of_mem _ h'.1, h'.2⟩

/-- After a space has just been emitted, the collapsed remainder
starts with a non-space character. -/
theorem collapseAux_true_head {l : List Char} {c : Char}
    (h : (collapseAux true l).head? = some c) : isPySpace c = false := by
  induction l with
  | nil => simp [collapseAux] at h
  | cons a t ih =>
    by_cases ha : isPySpace a
    · rw [show collapseAux true (a :: t) = collapseAux true t by
        simp [collapseAux, ha]] at h
      exact ih h
    · rw [show collapseAux true (a :: t) = a :: collapseAux false t by
        simp [collapseAux, ha]] at h
      simp at h
      exact h ▸ Bool.of_not_eq_true ha

/-- A collapsed list has no two adjacent whitespace characters. -/
theorem collapseAux_chain (l : List Char) (b : Bool) :
    (collapseAux b l).Chain'
      (fun x y => ¬(isPySpace x = true ∧ isPySpace y = true)) := by
  induction l generalizing b with
  | nil => cases b <;> simp [collapseAux]
  | cons a t ih =>
    by_cases ha : isPySpace a
    · cases b
      · rw [show collapseAux false (a :: t) = ' ' :: collapseAux true t by
          simp [collapseAux, ha]]
        rw [List.chain'_cons']
        refine ⟨fun y hy => ?_, ih true⟩
        rintro ⟨-, hy'⟩
        exact absurd hy' (by simp [collapseAux_true_head hy])
      · rw [show collapseAux true (a :: t) = collapseAux true t by
          simp [collapseAux, ha]]
        exact ih true
    · cases b <;>
        [rw [show collapseAux false (a :: t) = a :: collapseAux false t by
          simp [collapseAux, ha]];
         rw [show collapseAux true (a :: t) = a :: collapseAux false t by
          simp [collapseAux, ha]]] <;>
      · rw [List.chain'_cons']
        refine ⟨fun y _ => ?_, ih false⟩
        rintro ⟨ha', -⟩
        exact ha (by simp [ha'])

/-- Collapsing fixes a list whose spaces are single `' '`
characters. -/
theorem collapseAux_false_fix {l : List Char}
    (hsp : ∀ c ∈ l, isPySpace c = true → c = ' ')
    (hch : l.Chain' (fun x y => ¬(isPySpace x = true ∧ isPySpace y = true))) :
    collapseAux false l = l := by
  induction l with
  | nil => rfl
  | cons a t ih =>
    have hch' := (List.chain'_cons'.mp hch).2
    have hsp' : ∀ c ∈ t, isPySpace c = true → c = ' ' :=
      fun c hc => hsp c (List.mem_cons_of_mem _ hc)
    by_cases ha : isPySpace a
    · have ha' : a = ' ' := hsp a (List.mem_cons_self _ _) (by simpa using ha)
      rw [show collapseAux false (a :: t) = ' ' :: collapseAux true t by
        simp [collapseAux, ha]]
      cases t with
      | nil => simp [collapseAux, ha']
      | cons b u =>
        have hb : isPySpace b = false := by
          have := (List.chain'_cons'.mp hch).1 b (by simp)
          by_contra hb'
          exact this ⟨by simpa using ha, by simpa using hb'⟩
        have hbu : collapseAux false (b :: u) = b :: u := ih hsp' hch'
        rw [show collapseAux false (b :: u) = b :: collapseAux false u by
          simp [collapseAux, hb]] at hbu
        rw [show collapseAux true (b :: u) = b :: collapseAux false u by
          simp [collapseAux, hb]]
        rw [List.cons.injEq] at hbu
        rw [hbu.2, ha']
    · rw [show collapseAux false (a :: t) = a :: collapseAux false t by
        simp [collapseAux, ha]]
      rw [ih hsp' hch']

/-- The head surviving `dropWhile` fails the test. -/
theorem dropWhile_head_not {p : α → Bool} {l : List α} {c : α}
    (h : (l.dropWhile p).head? = some c) : p c = false := by
  induction l with
  | nil => simp [List.dropWhile] at h
  | cons a t ih =>
    by_cases ha : p a
    · rw [show (a :: t).dropWhile p = t.dropWhile p by simp [List.dropWhile, ha]] at h
      exact ih h
    · rw [show (a :: t).dropWhile p = a :: t by simp [List.dropWhile, ha]] at h
      simp at h
      exact h ▸ Bool.of_not_eq_true ha

/-- `dropWhile` fixes a list whose head fails the test. -/
theorem dropWhile_fix {p : α → Bool} {l : List α}
    (h : ∀ c, l.head? = some c → p c = false) : l.dropWhile p = l := by
  cases l with
  | nil => rfl
  | cons a t => simp [List.dropWhile, h a rfl]

/-- Membership in the trimmed list. -/
theorem mem_trimEnd {l : List Char} {c : Char} (h : c ∈ trimEnd l) : c ∈ l := by
  unfold trimEnd at h
  rw [List.mem_reverse] at h
  have := (List.dropWhile_sublist (l := l.reverse) (isPySpace ·)).subset h
  exact List.mem_reverse.mp this

/-- The last character of a trimmed list is not whitespace. -/
theorem trimEnd_getLast_not {l : List Char} {c : Char}
    (h : (trimEnd l).getLast? = some c) : isPySpace c = false := by
  unfold trimEnd at h
  rw [List.getLast?_reverse] at h
  exact dropWhile_head_not h

/-- Trimming the end preserves the head. -/
theorem trimEnd_head {l : List Char} {c : Char} (h : (trimEnd l).head? = some c) :
    l.head? = some c := by
  have hsuf : l.reverse.dropWhile (isPySpace ·) <:+ l.reverse :=
    List.dropWhile_suffix _
  obtain ⟨t, ht⟩ := hsuf
  have hl : l = trimEnd l ++ t.reverse := by
    unfold trimEnd
    rw [← List.reverse_append, ht, List.reverse_reverse]
  rw [hl]
  cases htr : trimEnd l with
  | nil => rw [htr] at h; simp at h
  | cons x xs =>
    rw [htr] at h
    simp at h ⊢
    exact h

/-- `trimEnd` fixes a list whose last character is not whitespace. -/
theorem trimEnd_fix {l : List Char}
    (h : ∀ c, l.getLast? = some c → isPySpace c = false) : trimEnd l = l := by
  unfold trimEnd
  rw [dropWhile_fix, List.reverse_reverse]
  intro c hc
  rw [List.head?_reverse] at hc
  exact h c hc

/-- Trimming preserves the no-adjacent-spaces invariant. -/
theorem trimEnd_chain {l : List Char}
    (h : l.Chain' (fun x y => ¬(isPySpace x = true ∧ isPySpace y = true))) :
    (trimEnd l).Chain' (fun x y => ¬(isPySpace x = true ∧ isPySpace y = true)) := by
  unfold trimEnd
  rw [List.chain'_reverse]
  have h' : l.reverse.Chain'
      (fun x y => ¬(isPySpace x = true ∧ isPySpace y = true)) := by
    rw [List.chain'_reverse]
    exact h.imp (fun a b hab hc => hab ⟨hc.2, hc.1⟩)
  exact (h'.suffix (List.dropWhile_suffix _)).imp
    (fun a b hab hc => hab ⟨hc.2, hc.1⟩)

/-- `trimWs` fixes a list with non-whitespace ends. -/
theorem trimWs_fix {l : List Char}
    (hh : ∀ c, l.head? = some c → isPySpace c = false)
    (hl : ∀ c, l.getLast? = some c → isPySpace c = false) : trimWs l = l := by
  unfold trimWs trimStart
  rw [dropWhile_fix hh]
  exact trimEnd_fix hl

theorem char_ofNat_toNat_lt {n : ℕ} (h : n < 0xd800) : (Char.ofNat n).toNat = n := by
  unfold Char.ofNat
  rw [dif_pos (Or.inl h)]
  rfl

theorem pyLower_toNat (c : Char) :
    (pyLower c).toNat = if 65 ≤ c.toNat ∧ c.toNat ≤ 90 then c.toNat + 32 else c.toNat := by
  by_cases h : 65 ≤ c.toNat ∧ c.toNat ≤ 90
  · have hb : (65 ≤ c.toNat && c.toNat ≤ 90) = true := by
      simp only [Bool.and_eq_true, decide_eq_true_eq]
      exact ⟨h.1, h.2⟩
    rw [if_pos h]
    unfold pyLower
    rw [if_pos hb]
    exact char_ofNat_toNat_lt (by omega)
  · have hb : ¬((65 ≤ c.toNat && c.toNat ≤ 90) = true) := by
      simp only [Bool.and_eq_true, decide_eq_true_eq]
      exact h
    rw [if_neg h]
    unfold pyLower
    rw [if_neg hb]

theorem isPySpace_pyLower (c : Char) : isPySpace (pyLower c) = isPySpace c := by
  have ht := pyLower_toNat c
  by_cases h : 65 ≤ c.toNat ∧ c.toNat ≤ 90
  · rw [if_pos h] at ht
    unfold isPySpace
    rw [ht]
    rw [Bool.eq_iff_iff]
    simp only [Bool.or_eq_true, Bool.and_eq_true, decide_eq_true_eq]
    omega
  · rw [if_neg h] at ht
    unfold isPySpace
    rw [ht]

theorem pyLower_eq_self {c : Char} (h : ¬(65 ≤ c.toNat ∧ c.toNat ≤ 90)) :
    pyLower c = c := by
  unfold pyLower
  rw [if_neg (by simp only [Bool.and_eq_true, decide_eq_true_eq]; exact h)]

theorem pyLower_idem (c : Char) : pyLower (pyLower c) = pyLower c := by
  by_cases h : 65 ≤ c.toNat ∧ c.toNat ≤ 90
  · have ht := pyLower_toNat c
    rw [if_pos h] at ht
    exact pyLower_eq_self (by omega)
  · rw [pyLower_eq_self h, pyLower_eq_self h]

/-- The lower-case map cannot create the normalizer's special
characters. -/
theorem pyLower_preserves_nonspecial {c : Char}
    (hne : c ≠ nbspChar ∧ c ≠ '.' ∧ c ≠ zwjChar ∧ c ≠ '-') :
    pyLower c ≠ nbspChar ∧ pyLower c ≠ '.' ∧ pyLower c ≠ zwjChar ∧ pyLower c ≠ '-' := by
  by_cases h : 65 ≤ c.toNat ∧ c.toNat ≤ 90
  · have ht := pyLower_toNat c
    rw [if_pos h] at ht
    have h160 : nbspChar.toNat = 160 := rfl
    have h46 : ('.' : Char).toNat = 46 := rfl
    have h8205 : zwjChar.toNat = 0x200D := rfl
    have h45 : ('-' : Char).toNat = 45 := rfl
    refine ⟨?_, ?_, ?_, ?_⟩ <;> intro heq <;>
    · have hcg := congrArg Char.toNat heq
      rw [ht] at hcg
      omega
  · rw [pyLower_eq_self h]
    exact hne

/-- The characters of the pre-lower-case stage of `normList` carry no
punctuation or non-breaking space. -/
theorem normList_stage_nonspecial {l : List Char} {d : Char}
    (hd : d ∈ (l.map (fun c => if c = nbspChar then ' ' else c)).map
      (fun c => if c = '.' || c = zwjChar || c = '-' then ' ' else c)) :
    d ≠ '.' ∧ d ≠ zwjChar ∧ d ≠ '-' ∧ d ≠ nbspChar := by
  rw [List.mem_map] at hd
  obtain ⟨e, he, hde⟩ := hd
  rw [List.mem_map] at he
  obtain ⟨e0, _, he0⟩ := he
  by_cases hsp : e = '.' || e = zwjChar || e = '-'
  · rw [if_pos hsp] at hde
    subst hde
    refine ⟨by decide, by decide, by decide, by decide⟩
  · rw [if_neg hsp] at hde
    subst hde
    simp only [Bool.or_eq_true, decide_eq_true_eq, not_or] at hsp
    refine ⟨hsp.1.1, hsp.1.2, hsp.2, ?_⟩
    by_cases he0' : e0 = nbspChar
    · rw [if_pos he0'] at he0
      subst he0
      decide
    · rw [if_neg he0'] at he0
      subst he0
      exact he0'

/-- The output of `normList` is in normal form. -/
theorem normList_normal (l : List Char) :
    (∀ c ∈ normList l,
      (isPySpace c = true → c = ' ') ∧ c ≠ nbspChar ∧ c ≠ '.' ∧ c ≠ zwjChar ∧
        c ≠ '-' ∧ pyLower c = c) ∧
    (normList l).Chain' (fun x y => ¬(isPySpace x = true ∧ isPySpace y = true)) ∧
    (∀ c, (normList l).head? = some c → isPySpace c = false) ∧
    (∀ c, (normList l).getLast? = some c → isPySpace c = false) := by
  unfold normList
  set s2 := (l.map (fun c => if c = nbspChar then ' ' else c)).map
    (fun c => if c = '.' || c = zwjChar || c = '-' then ' ' else c) with hs2
  set z := trimWs (collapseWs s2) with hz
  have hzmem : ∀ d ∈ z, d = ' ' ∨ (d ∈ s2 ∧ isPySpace d = false) := by
    intro d hd
    rw [hz] at hd
    unfold trimWs trimStart at hd
    have hd1 : d ∈ (collapseWs s2).dropWhile (isPySpace ·) := mem_trimEnd hd
    have hd2 : d ∈ collapseWs s2 :=
      (List.dropWhile_sublist (isPySpace ·)).subset hd1
    exact mem_collapseAux hd2
  have hzchain : z.Chain' (fun x y => ¬(isPySpace x = true ∧ isPySpace y = true)) := by
    rw [hz]
    unfold trimWs trimStart
    exact trimEnd_chain ((collapseAux_chain s2 false).suffix (List.dropWhile_suffix _))
  have hzhead : ∀ c, z.head? = some c → isPySpace c = false := by
    intro c hc
    rw [hz] at hc
    unfold trimWs trimStart at hc
    exact dropWhile_head_not (trimEnd_head hc)
  have hzlast : ∀ c, z.getLast? = some c → isPySpace c = false := by
    intro c hc
    rw [hz] at hc
    exact trimEnd_getLast_not hc
  refine ⟨?_, ?_, ?_, ?_⟩
  · intro c hc
    rw [List.mem_map] at hc
    obtain ⟨d, hd, hcd⟩ := hc
    have hspace : isPySpace c = isPySpace d := hcd ▸ isPySpace_pyLower d
    rcases hzmem d hd with hd' | hd'
    · subst hd'
      refine ⟨fun _ => hcd ▸ rfl, ?_⟩
      rw [← hcd]
      have hpn := pyLower_preserves_nonspecial
        (c := ' ') ⟨by decide, by decide, by decide, by decide⟩
      exact ⟨hpn.1, hpn.2.1, hpn.2.2.1, hpn.2.2.2, pyLower_idem ' '⟩
    · have hnsp := normList_stage_nonspecial (hs2 ▸ hd'.1)
      refine ⟨fun hsp => absurd (hspace ▸ hsp) (by simp [hd'.2]), ?_⟩
      rw [← hcd]
      have hdnbsp : d ≠ nbspChar := hnsp.2.2.2
      have hpn := pyLower_preserves_nonspecial ⟨hdnbsp, hnsp.1, hnsp.2.1, hnsp.2.2.1⟩
      exact ⟨hpn.1, hpn.2.1, hpn.2.2.1, hpn.2.2.2, pyLower_idem d⟩
  · rw [List.chain'_map]
    exact hzchain.imp (fun a b hab hc =>
      hab ⟨(isPySpace_pyLower a) ▸ hc.1, (isPySpace_pyLower b) ▸ hc.2⟩)
  · intro c hc
    rw [List.head?_map] at hc
    cases hzh : z.head? with
    | none => rw [hzh] at hc; simp at hc
    | some d =>
      rw [hzh] at hc
      simp at hc
      rw [← hc, isPySpace_pyLower]
      exact hzhead d hzh
  · intro c hc
    rw [List.getLast?_map] at hc
    cases hzh : z.getLast? with
    | none => rw [hzh] at hc; simp at hc
    | some d =>
      rw [hzh] at hc
      simp at hc
      rw [← hc, isPySpace_pyLower]
      exact hzlast d hzh

/-- `normList` is the identity on normal-form lists. -/
theorem normList_fix {l : List Char}
    (hmem : ∀ c ∈ l,
      (isPySpace c = true → c = ' ') ∧ c ≠ nbspChar ∧ c ≠ '.' ∧ c ≠ zwjChar ∧
        c ≠ '-' ∧ pyLower c = c)
    (hchain : l.Chain' (fun x y => ¬(isPySpace x = true ∧ isPySpace y = true)))
    (hhead : ∀ c, l.head? = some c → isPySpace c = false)
    (hlast : ∀ c, l.getLast? = some c → isPySpace c = false) : normList l = l := by
  show (trimWs (collapseWs ((l.map (fun c => if c = nbspChar then ' ' else c)).map
    (fun c => if c = '.' || c = zwjChar || c = '-' then ' ' else c)))).map pyLower = l
  have h1 : l.map (fun c => if c = nbspChar then ' ' else c) = l := by
    conv_rhs => rw [← List.map_id l]
    exact List.map_congr_left (fun c hc => by
      rw [if_neg (hmem c hc).2.1]; rfl)
  rw [h1]
  have h2 : l.map (fun c => if c = '.' || c = zwjChar || c = '-' then ' ' else c) = l := by
    conv_rhs => rw [← List.map_id l]
    exact List.map_congr_left (fun c hc => by
      have h := hmem c hc
      rw [if_neg (by
        simp only [Bool.or_eq_true, decide_eq_true_eq]
        push_neg
        exact ⟨⟨h.2.2.1, h.2.2.2.1⟩, h.2.2.2.2.1⟩)]
      rfl)
  rw [h2]
  have h3 : collapseWs l = l :=
    collapseAux_false_fix (fun c hc => (hmem c hc).1) hchain
  rw [h3, trimWs_fix hhead hlast]
  conv_rhs => rw [← List.map_id l]
  exact List.map_congr_left (fun c hc => (hmem c hc).2.2.2.2.2)

/-- C8: the normalizer is idempotent — for every string `x`,
`norm (norm x) = norm x`. -/
theorem norm_idempotent (x : String) : norm (norm x) = norm x := by
  unfold norm
  have htl : (String.mk (normList x.toList)).toList = normList x.toList := rfl
  rw [htl]
  obtain ⟨hmem, hchain, hhead, hlast⟩ := normList_normal x.toList
  rw [normList_fix hmem hchain hhead hlast]

/-! ## Claim C1 — `match_summary` nth-meeting selection -/

/-- C1 (counterexample): one CSK–MI meeting exists in 2011 and
`nth = 2` — fewer meetings than `nth` — yet `match_summary` does not
fail with the "no match found" error the claim requires: it returns
the summary of the last (here the only) meeting. -/
theorem match_summary_nth_overrun_cx :
    (meetingsSorted
      [{ match_id := 1, season := "2011", date := some 10, venue := "A",
         team1 := "CSK", team2 := "MI", winner := none, player_of_match := none }]
      "CSK" "MI" "2011").length = 1 ∧ (1 : ℕ) < 2 ∧
    match_summary
      [{ match_id := 1, season := "2011", date := some 10, venue := "A",
         team1 := "CSK", team2 := "MI", winner := none, player_of_match := none }]
      [] "CSK" "MI" "2011" 2 =
      .ok { meta := { match_id := 1, season := "2011", date := some 10, venue := "A",
                      team1 := "CSK", team2 := "MI", winner := none,
                      player_of_match := none },
            innings := [], top_batters := [], top_bowlers := [] } :=
  ⟨rfl, by decide, rfl⟩

/-- C1 (amended): `match_summary` fails with the "no match found"
error iff *no* meeting of the two teams exists in the season
(order-insensitive on `team1`/`team2`); when at least `nth` meetings
exist it summarises exactly the nth meeting in chronological order
(date `NULLS LAST`, then match id), and when between one and `nth - 1`
meetings exist it summarises the *last* meeting instead of failing. -/
theorem match_summary_error_iff_no_meeting (metas : List MatchMeta) (ds : List Delivery)
    (team_a team_b season : String) (nth : ℕ) (h1 : 1 ≤ nth) :
    ((∃ e, match_summary metas ds team_a team_b season nth = .error e) ↔
      meetingsSorted metas team_a team_b season = []) ∧
    (nth ≤ (meetingsSorted metas team_a team_b season).length →
      pickNthMeeting metas team_a team_b season nth =
        (meetingsSorted metas team_a team_b season)[nth - 1]?) ∧
    ((meetingsSorted metas team_a team_b season).length < nth →
      pickNthMeeting metas team_a team_b season nth =
        (meetingsSorted metas team_a team_b season).getLast?) := by
  have hpick : pickNthMeeting metas team_a team_b season nth =
      ((meetingsSorted metas team_a team_b season).take nth).getLast? := rfl
  refine ⟨⟨?_, ?_⟩, ?_, ?_⟩
  · rintro ⟨e, he⟩
    cases hp : pickNthMeeting metas team_a team_b season nth with
    | none =>
      rw [hpick, List.getLast?_eq_none_iff, List.take_eq_nil_iff] at hp
      rcases hp with hp | hp
      · omega
      · exact hp
    | some m =>
      rw [match_summary, hp] at he
      exact absurd he (by simp)
  · intro hempty
    refine ⟨"No match found between " ++ team_a ++ " and " ++ team_b ++ " in " ++ season, ?_⟩
    have hp : pickNthMeeting metas team_a team_b season nth = none := by
      rw [hpick, List.getLast?_eq_none_iff, List.take_eq_nil_iff]
      exact Or.inr hempty
    rw [match_summary, hp]
  · intro hle
    rw [hpick, List.getLast?_eq_getElem?, List.length_take,
      Nat.min_eq_left hle, List.getElem?_take]
    rw [if_pos (by omega)]
  · intro hlt
    rw [hpick, List.take_of_length_le (Nat.le_of_lt hlt)]

/-- C1 (witness): the amended theorem applied at a concrete input —
two meetings, `nth = 1`. -/
theorem match_summary_error_iff_no_meeting_witness :
    ((∃ e, match_summary
        [{ match_id := 1, season := "2011", date := some 10, venue := "A",
           team1 := "CSK", team2 := "MI", winner := none, player_of_match := none },
         { match_id := 2, season := "2011", date := some 20, venue := "B",
           team1 := "MI", team2 := "CSK", winner := none, player_of_match := none }]
        [] "CSK" "MI" "2011" 1 = .error e) ↔
      meetingsSorted
        [{ match_id := 1, season := "2011", date := some 10, venue := "A",
           team1 := "CSK", team2 := "MI", winner := none, player_of_match := none },
         { match_id := 2, season := "2011", date := some 20, venue := "B",
           team1 := "MI", team2 := "CSK", winner := none, player_of_match := none }]
        "CSK" "MI" "2011" = []) ∧
    (1 ≤ (meetingsSorted
        [{ match_id := 1, season := "2011", date := some 10, venue := "A",
           team1 := "CSK", team2 := "MI", winner := none, player_of_match := none },
         { match_id := 2, season := "2011", date := some 20, venue := "B",
           team1 := "MI", team2 := "CSK", winner := none, player_of_match := none }]
        "CSK" "MI" "2011").length →
      pickNthMeeting
        [{ match_id := 1, season := "2011", date := some 10, venue := "A",
           team1 := "CSK", team2 := "MI", winner := none, player_of_match := none },
         { match_id := 2, season := "2011", date := some 20, venue := "B",
           team1 := "MI", team2 := "CSK", winner := none, player_of_match := none }]
        "CSK" "MI" "2011" 1 =
        (meetingsSorted
          [{ match_id := 1, season := "2011", date := some 10, venue := "A",
             team1 := "CSK", team2 := "MI", winner := none, player_of_match := none },
           { match_id := 2, season := "2011", date := some 20, venue := "B",
             team1 := "MI", team2 := "CSK", winner := none, player_of_match := none }]
          "CSK" "MI" "2011")[1 - 1]?) ∧
    ((meetingsSorted
        [{ match_id := 1, season := "2011", date := some 10, venue := "A",
           team1 := "CSK", team2 := "MI", winner := none, player_of_match := none },
         { match_id := 2, season := "2011", date := some 20, venue := "B",
           team1 := "MI", team2 := "CSK", winner := none, player_of_match := none }]
        "CSK" "MI" "2011").length < 1 →
      pickNthMeeting
        [{ match_id := 1, season := "2011", date := some 10, venue := "A",
           team1 := "CSK", team2 := "MI", winner := none, player_of_match := none },
         { match_id := 2, season := "2011", date := some 20, venue := "B",
           team1 := "MI", team2 := "CSK", winner := none, player_of_match := none }]
        "CSK" "MI" "2011" 1 =
        (meetingsSorted
          [{ match_id := 1, season := "2011", date := some 10, venue := "A",
             team1 := "CSK", team2 := "MI", winner := none, player_of_match := none },
           { match_id := 2, season := "2011", date := some 20, venue := "B",
             team1 := "MI", team2 := "CSK", winner := none, player_of_match := none }]
          "CSK" "MI" "2011").getLast?) :=
  match_summary_error_iff_no_meeting _ _ "CSK" "MI" "2011" 1 (by decide)

/-! ## Claim C2 — `player_stats` denominators -/

/-- A filtered count splits into its legal and its illegal deliveries. -/
theorem len_split_legal (l : List Delivery) (p : Delivery → Bool) :
    (l.filter p).length =
      ((l.filter p).filter isLegal).length +
        (l.filter fun d => p d && !isLegal d).length := by
  induction l with
  | nil => rfl
  | cons a t ih =>
    by_cases hp : p a
    · by_cases hl : isLegal a
      · rw [List.filter_cons, if_pos hp, List.filter_cons, if_pos hl,
          List.filter_cons, if_neg (by simp [hp, hl]), List.length_cons, List.length_cons]
        omega
      · rw [List.filter_cons, if_pos hp, List.filter_cons, if_neg hl,
          List.filter_cons, if_pos (by simp [hp, hl]), List.length_cons, List.length_cons]
        omega
    · rw [List.filter_cons, if_neg hp, List.filter_cons, if_neg (by simp [hp])]
      exact ih

/-- C2 (counterexample): over the single delivery `exWide` — a wide
faced by "P" — `player_stats` reports one ball faced although zero
*legal* deliveries were faced, refuting "balls faced = legal balls
only". -/
theorem player_stats_balls_cx :
    (player_stats [exWide] [] "P" "career" none).map (fun r => r.batting.balls) =
      some 1 ∧
    specLegalBallsFaced ([exWide].filter (playerStatsFilter "P" "career" none)) "P" = 0 ∧
    (1 : ℕ) ≠ 0 :=
  ⟨rfl, rfl, by decide⟩

/-- C2 (amended): every denominator of `player_stats` counts *all*
deliveries, legal or not: balls faced is the legal count *plus* the
illegal count; the strike rate divides by that total; the overs figure
and the economy denominator likewise use legal plus illegal balls
bowled. -/
theorem player_stats_denominators (ds : List Delivery) (metas : List MatchMeta)
    (player scope : String) (season : Option String) (r : PlayerStats)
    (h : player_stats ds metas player scope season = some r) :
    r.batting.balls =
      specLegalBallsFaced (ds.filter (playerStatsFilter player scope season)) player +
        ((ds.filter (playerStatsFilter player scope season)).filter
          (fun d => d.striker = player && !isLegal d)).length ∧
    r.batting.sr = safe_div100 (r.batting.runs * 100) r.batting.balls ∧
    r.bowling.overs =
      safe_div100
        (specLegalBallsBowled (ds.filter (playerStatsFilter player scope season)) player +
          ((ds.filter (playerStatsFilter player scope season)).filter
            (fun d => d.bowler = player && !isLegal d)).length) 6 ∧
    r.bowling.economy =
      safe_div100 (r.bowling.runs_conceded * 6)
        (specLegalBallsBowled (ds.filter (playerStatsFilter player scope season)) player +
          ((ds.filter (playerStatsFilter player scope season)).filter
            (fun d => d.bowler = player && !isLegal d)).length) := by
  by_cases he : (ds.filter (playerStatsFilter player scope season)).isEmpty
  · rw [player_stats, if_pos he] at h
    exact Option.noConfusion h
  · rw [player_stats, if_neg he] at h
    have hr := Option.some.inj h
    subst hr
    have hbowl : ((ds.filter (playerStatsFilter player scope season)).filter
          (fun d => d.bowler = player)).length =
        specLegalBallsBowled (ds.filter (playerStatsFilter player scope season)) player +
          ((ds.filter (playerStatsFilter player scope season)).filter
            (fun d => d.bowler = player && !isLegal d)).length :=
      len_split_legal (ds.filter (playerStatsFilter player scope season))
        (fun d => d.bowler = player)
    refine ⟨?_, rfl, ?_, ?_⟩
    · exact len_split_legal (ds.filter (playerStatsFilter player scope season))
        (fun d => d.striker = player)
    · show safe_div100
          ((ds.filter (playerStatsFilter player scope season)).filter
            (fun d => d.bowler = player)).length 6 = _
      rw [hbowl]
    · show safe_div100
          (sumRunsTotal ((ds.filter (playerStatsFilter player scope season)).filter
            (fun d => d.bowler = player)) * 6)
          ((ds.filter (playerStatsFilter player scope season)).filter
            (fun d => d.bowler = player)).length = _
      rw [hbowl]
      exact rfl

/-- C2 (witness): the amended theorem applied at the lone-wide input;
the wide is the one illegal delivery. -/
theorem player_stats_denominators_witness :
    exStatsWide.batting.balls =
      specLegalBallsFaced ([exWide].filter (playerStatsFilter "P" "career" none)) "P" +
        (([exWide].filter (playerStatsFilter "P" "career" none)).filter
          (fun d => d.striker = "P" && !isLegal d)).length :=
  (player_stats_denominators [exWide] [] "P" "career" none exStatsWide rfl).1

/-! ## Claim C3 — `team_squad` appearance counts -/

/-- C3 (counterexample): player "L" is squad-listed and never appears
in the deliveries, yet receives appearance count `some 0` — not the
null the claim requires. -/
theorem team_squad_listed_zero_cx :
    (¬ "L" ∈ (appearancePairs [exWide] "T1" "2011").map (fun pr => pr.2)) ∧
    team_squad [exWide] ["L"] "T1" "2011" =
      .ok [{ player := "L", appearances := some 0 },
           { player := "P", appearances := some 1 }] :=
  ⟨by decide, rfl⟩

/-- C3 (amended): `team_squad` fails iff the union of appeared and
listed players is empty; in a success, a player who appeared gets the
distinct-match appearance count, and a player who did not appear is
squad-listed and gets `some 0` — never `none`. -/
theorem team_squad_entry_shape (ds : List Delivery) (listed : List String)
    (team season : String) :
    ((∃ e, team_squad ds listed team season = .error e) ↔
      squadAppeared ds team season ++ listed = []) ∧
    (∀ sq, team_squad ds listed team season = .ok sq →
      ∀ en ∈ sq,
        (en.player ∈ squadAppeared ds team season →
          en.appearances = some (appearanceCount ds team season en.player)) ∧
        (en.player ∉ squadAppeared ds team season →
          en.player ∈ listed ∧ en.appearances = some 0)) := by
  constructor
  · constructor
    · rintro ⟨e, hee⟩
      by_cases hb : (squadList ds listed team season).isEmpty
      · rw [squadList, List.isEmpty_iff, List.map_eq_nil] at hb
        have hd : (squadAppeared ds team season ++ listed).dedup = [] := by
          cases hd2 : (squadAppeared ds team season ++ listed).dedup with
          | nil => rfl
          | cons a t =>
            exfalso
            have ha : a ∈ sortByCmp strCmp ((squadAppeared ds team season ++ listed).dedup) := by
              rw [mem_sortByCmp, hd2]
              exact List.mem_cons_self a t
            rw [hb] at ha
            exact List.not_mem_nil a ha
        rwa [List.dedup_eq_nil] at hd
      · rw [team_squad, if_neg hb] at hee
        exact Except.noConfusion hee
    · intro hnil
      refine ⟨"No squad data found for " ++ team ++ " in " ++ season, ?_⟩
      have hb : (squadList ds listed team season).isEmpty := by
        rw [squadList]
        have hd : (squadAppeared ds team season ++ listed).dedup = [] := by
          rw [List.dedup_eq_nil]
          exact hnil
        rw [hd]
        rfl
      rw [team_squad, if_pos hb]
  · intro sq hok en hen
    by_cases hb : (squadList ds listed team season).isEmpty
    · rw [team_squad, if_pos hb] at hok
      exact Except.noConfusion hok
    · rw [team_squad, if_neg hb] at hok
      have hsq := Except.ok.inj hok
      subst hsq
      rw [squadList, List.mem_map] at hen
      obtain ⟨p, hpmem, hfp⟩ := hen
      subst hfp
      constructor
      · intro hap
        have hp : p ∈ squadAppeared ds team season := hap
        show (if p ∈ squadAppeared ds team season then
                some (appearanceCount ds team season p)
              else if p ∈ listed then some 0 else none) =
          some (appearanceCount ds team season p)
        rw [if_pos hp]
      · intro hnap
        have hp : p ∉ squadAppeared ds team season := hnap
        have hpl : p ∈ listed := by
          rw [mem_sortByCmp, List.mem_dedup, List.mem_append] at hpmem
          rcases hpmem with hpa | hpl
          · exact absurd hpa hp
          · exact hpl
        refine ⟨hpl, ?_⟩
        show (if p ∈ squadAppeared ds team season then
                some (appearanceCount ds team season p)
              else if p ∈ listed then some 0 else none) = some 0
        rw [if_neg hp, if_pos hpl]

/-- C3 (witness): the amended theorem applied at the lone-wide input
with listed player "L": "L" never appeared, is listed, and gets
`some 0`. -/
theorem team_squad_entry_shape_witness :
    "L" ∈ ["L"] ∧
    ({ player := "L", appearances := some 0 } : SquadEntry).appearances = some 0 :=
  ((team_squad_entry_shape [exWide] ["L"] "T1" "2011").2
    [{ player := "L", appearances := some 0 },
     { player := "P", appearances := some 1 }]
    rfl { player := "L", appearances := some 0 } (by decide)).2 (by decide)

/-! ## Claim C4 — routing the CSK/MI summary query -/

/-- C4 (counterexample): on the claim's query the router returns
`team_b = "MI"` — `normalize_team_token` maps the upper-cased token
through `TEAM_SHORTS` before any title-casing — not the "Mi" the claim
states. -/
theorem route_summary_team_b_cx :
    (route (fun _ _ => 0)
        "summary of the 1st match between CSK and MI in 2011").params.team_b =
      some "MI" ∧ some "MI" ≠ some "Mi" :=
  ⟨rfl, by decide⟩

/-- C4 (amended): for every fuzzy scorer, routing "summary of the 1st
match between CSK and MI in 2011" yields intent `match_summary` with
`team_a = "CSK"`, `team_b = "MI"`, season "2011" and `nth = 1`. -/
theorem route_summary_csk_mi (scorer : String → String → ℕ) :
    route scorer "summary of the 1st match between CSK and MI in 2011" =
      { intent := "match_summary"
        params := { team_a := some "CSK", team_b := some "MI",
                    season := some "2011", nth := some 1 } } := rfl

/-! ## Claim C5 — the phase-leaderboard threshold, cap and ranking -/

/-- C5: every returned leader bowled at least `min_overs * 6` legal
balls in the phase — a bowler below the threshold never appears,
whatever their economy —, at most ten rows are returned, and the rows
are sorted by the leaderboard comparator (economy asc nulls-last,
average asc nulls-last, strike rate asc nulls-last, overs desc,
name asc). -/
theorem best_phase_bowlers_spec (ds : List Delivery) (phase scope : String)
    (season : Option String) (min_overs : ℕ) :
    (∀ r ∈ best_phase_bowlers ds phase scope season min_overs,
      min_overs * 6 ≤ r.legal_balls) ∧
    (best_phase_bowlers ds phase scope season min_overs).length ≤ 10 ∧
    (best_phase_bowlers ds phase scope season min_overs).Pairwise
      (fun x y => (phaseBowlerCmp x y).isLE = true) := by
  refine ⟨?_, ?_, ?_⟩
  · intro r hr
    have h1 : r ∈ sortByCmp phaseBowlerCmp
        (((distinctsBy (·.bowler) (ds.filter (phaseFilter phase scope season))).map
            (fun b => phaseBowlerRowOf b (ds.filter (phaseFilter phase scope season)))).filter
          (fun r => min_overs * 6 ≤ r.legal_balls)) := List.mem_of_mem_take hr
    rw [mem_sortByCmp] at h1
    exact of_decide_eq_true (List.mem_filter.mp h1).2
  · exact List.length_take_le 10 _
  · exact (sortByCmp_pairwise lawCmp_phaseBowlerCmp _).sublist (List.take_sublist 10 _)

/-- C5 (witness): with a six-ball bowler "A" and a one-ball bowler "B"
(whose economy of 0.00 is the best in the phase) at `min_overs = 1`,
the leader meets the six-ball threshold. -/
theorem best_phase_bowlers_spec_witness :
    1 * 6 ≤ exPhaseRowA.legal_balls :=
  (best_phase_bowlers_spec (List.replicate 6 exPhA ++ [exPhB]) "Death" "career"
    none 1).1 exPhaseRowA (by decide)

/-! ## Claim C6 — the batting-star tie-break chain -/

/-- The explicit spec chain coincides with the strict part of the
`bat_sql` comparator. -/
theorem batStrictlyBetter_iff (x y : H2HBatRow) :
    batStrictlyBetter x y = true ↔ h2hBatCmp x y = .lt := by
  have hdlt : ∀ a b : ℕ, (natCmpDesc a b = .lt) ↔ b < a := fun a b => natCmp_lt_iff
  have hlt : ∀ u v : Option ℕ,
      (optCmpNL natCmpDesc u v = .lt) ↔ optDescRankLt u v = true := by
    intro u v
    cases u <;> cases v <;> simp [optCmpNL, optDescRankLt, hdlt]
  have heq : ∀ u v : Option ℕ, (optCmpNL natCmpDesc u v = .eq) ↔ u = v :=
    fun u v => optCmpNL_eq_iff (fun a b => natCmpDesc_eq_iff)
  unfold batStrictlyBetter h2hBatCmp
  simp only [ord_then_lt, ord_then_eq, hlt, heq, hdlt, natCmpDesc_eq_iff, natCmp_lt_iff,
    natCmp_eq_iff, Bool.or_eq_true, Bool.and_eq_true, decide_eq_true_eq]
  tauto

/-- C6: when `head_to_head` picks a batting star, the star is one of
the candidate rows and no candidate strictly beats it under the
explicit tie-break chain (more runs; equal runs → higher average,
nulls last; tied averages → higher strike rate, nulls last; then fewer
balls, then name). -/
theorem h2h_bat_star_chain (sdelv : List Delivery) (team_for team_against : String)
    (s : H2HBatRow) (h : h2hBatStar sdelv team_for team_against = some s) :
    s ∈ h2hBatRows sdelv team_for team_against ∧
    ∀ r ∈ h2hBatRows sdelv team_for team_against, batStrictlyBetter r s = false := by
  rw [h2hBatStar] at h
  constructor
  · cases hl : sortByCmp h2hBatCmp (h2hBatRows sdelv team_for team_against) with
    | nil =>
      rw [hl] at h
      exact Option.noConfusion h
    | cons a t =>
      rw [hl] at h
      have ha : a = s := Option.some.inj h
      subst ha
      rw [← mem_sortByCmp (c := h2hBatCmp), hl]
      exact List.mem_cons_self a t
  · intro r hr
    have hle := sortByCmp_head_le lawCmp_h2hBatCmp h hr
    cases hb : batStrictlyBetter r s
    · rfl
    · exfalso
      rw [batStrictlyBetter_iff] at hb
      obtain ⟨hswap, _, _, _⟩ := lawCmp_h2hBatCmp
      have hgt : h2hBatCmp s r = .gt := by
        rw [hswap s r trivial trivial, hb]
        rfl
      rw [hgt] at hle
      exact Bool.noConfusion hle

/-- C6 (witness): batters "X" and "Y" tie on runs (and strike rate);
"X" has the higher average and is picked; "Y" does not strictly beat
"X". -/
theorem h2h_bat_star_chain_witness :
    exBatRowX ∈ h2hBatRows [exBatX1, exBatX2, exBatY1, exBatY2] "T1" "T2" ∧
    batStrictlyBetter exBatRowY exBatRowX = false :=
  ⟨(h2h_bat_star_chain [exBatX1, exBatX2, exBatY1, exBatY2] "T1" "T2"
      exBatRowX rfl).1,
   (h2h_bat_star_chain [exBatX1, exBatX2, exBatY1, exBatY2] "T1" "T2"
      exBatRowX rfl).2 exBatRowY (by decide)⟩

/-! ## Claim C7 — the substring step of player resolution -/

/-- C7: when the alias, exact-name and initials lookups all miss, the
substring step collects up to ten canonical names containing the
normalized input: more than one match returns `none` with the
non-empty, at-most-ten candidate list; exactly one match returns that
player with no candidates; zero matches fall through to the fuzzy
step. -/
theorem resolve_player_substring (fuzzy : String → List String → Option String)
    (players : List String) (user_text : String)
    (hne : user_text ≠ "")
    (halias : lookupAssoc PLAYER_ALIASES (norm user_text) = none)
    (hexact : dictLookupLast norm players (norm user_text) = none)
    (hinit : dictLookupLast initials_key players (initials_key user_text) = none) :
    (1 < (substringChoices players (norm user_text)).length →
      resolve_player fuzzy players user_text =
        (none, substringChoices players (norm user_text)) ∧
      substringChoices players (norm user_text) ≠ [] ∧
      (substringChoices players (norm user_text)).length ≤ 10) ∧
    ((substringChoices players (norm user_text)).length = 1 →
      resolve_player fuzzy players user_text =
        ((substringChoices players (norm user_text)).head?, [])) ∧
    ((substringChoices players (norm user_text)).length = 0 →
      resolve_player fuzzy players user_text =
        (match fuzzy user_text players with
         | some f => (some f, [])
         | none => (none, []))) := by
  rw [resolve_player, if_neg hne]
  simp only [halias, hexact, hinit]
  refine ⟨?_, ?_, ?_⟩
  · intro hgt
    rw [if_neg (by omega), if_pos hgt]
    refine ⟨rfl, ?_, ?_⟩
    · exact List.length_pos.mp (by omega)
    · rw [substringChoices]
      exact List.length_take_le 10 _
  · intro hone
    rw [if_pos hone]
  · intro hzero
    rw [if_neg (by omega), if_neg (by omega)]

/-- C7 (witness): resolving "Sharma" against the two canonical players
"A Sharma" and "B Sharma" (alias, exact and initials lookups all miss)
is ambiguous: `none` plus both candidates. -/
theorem resolve_player_substring_witness :
    resolve_player (fun _ _ => none) ["A Sharma", "B Sharma"] "Sharma" =
      (none, ["A Sharma", "B Sharma"]) ∧
    (["A Sharma", "B Sharma"] : List String) ≠ [] ∧
    (["A Sharma", "B Sharma"] : List String).length ≤ 10 :=
  let h := (resolve_player_substring (fun _ _ => none) ["A Sharma", "B Sharma"]
    "Sharma" (by decide) (by decide) (by decide) (by decide)).1 (by decide)
  ⟨h.1.trans rfl, h.2.1, h.2.2⟩

/-! ## Claim C9 — season scoping of aggregates versus matchups -/

/-- C9: the four matchup sub-results, the team list and the last team
of a season-scoped `player_stats` query coincide with those of the
career query over the same delivery log — they are computed over all
seasons — while each query's batting and bowling aggregates come from
its own scoped frame. -/
theorem player_stats_matchups_scope (ds : List Delivery) (metas : List MatchMeta)
    (player season : String) (r r' : PlayerStats)
    (h : player_stats ds metas player "season" (some season) = some r)
    (h' : player_stats ds metas player "career" none = some r') :
    r.matchups = r'.matchups ∧ r.teams = r'.teams ∧ r.last_team = r'.last_team ∧
    r.batting =
      battingAggOf (ds.filter (playerStatsFilter player "season" (some season))) player ∧
    r'.batting = battingAggOf (ds.filter (playerStatsFilter player "career" none)) player ∧
    r.bowling =
      bowlingAggOf (ds.filter (playerStatsFilter player "season" (some season))) player ∧
    r'.bowling = bowlingAggOf (ds.filter (playerStatsFilter player "career" none)) player := by
  by_cases he : (ds.filter (playerStatsFilter player "season" (some season))).isEmpty
  · rw [player_stats, if_pos he] at h
    exact Option.noConfusion h
  · by_cases he' : (ds.filter (playerStatsFilter player "career" none)).isEmpty
    · rw [player_stats, if_pos he'] at h'
      exact Option.noConfusion h'
    · rw [player_stats, if_neg he] at h
      rw [player_stats, if_neg he'] at h'
      have hr := Option.some.inj h
      have hr' := Option.some.inj h'
      subst hr
      subst hr'
      exact ⟨rfl, rfl, rfl, rfl, rfl, rfl, rfl⟩

/-- C9 (witness): over `[exWide, exBowled]` the season-2011 query and
the career query for "P" share their matchups (the nemesis bowler "R"
stems from the 2012 delivery) while the batting aggregates differ. -/
theorem player_stats_matchups_scope_witness :
    exStatsSeasonP.matchups = exStatsCareerP.matchups ∧
    exStatsSeasonP.teams = exStatsCareerP.teams ∧
    exStatsSeasonP.last_team = exStatsCareerP.last_team ∧
    exStatsSeasonP.batting =
      battingAggOf ([exWide, exBowled].filter
        (playerStatsFilter "P" "season" (some "2011"))) "P" ∧
    exStatsCareerP.batting =
      battingAggOf ([exWide, exBowled].filter (playerStatsFilter "P" "career" none)) "P" ∧
    exStatsSeasonP.bowling =
      bowlingAggOf ([exWide, exBowled].filter
        (playerStatsFilter "P" "season" (some "2011"))) "P" ∧
    exStatsCareerP.bowling =
      bowlingAggOf ([exWide, exBowled].filter (playerStatsFilter "P" "career" none)) "P" :=
  player_stats_matchups_scope [exWide, exBowled] [] "P" "2011"
    exStatsSeasonP exStatsCareerP rfl rfl

/-! ## Claim C10 — two wicket-counting conventions -/

/-- C10: the `head_to_head` bowling star counts only dismissals whose
kind does not contain "run out", while the `match_summary` innings
rows and top bowlers and the `player_stats` bowling aggregate count
every delivery with a non-null dismissed-player marker: on any group
the two conventions differ by exactly the run-out dismissals, and on
the concrete run-out delivery they disagree (0 versus 1). -/
theorem wicket_conventions (sdelv ds df : List Delivery)
    (key : String × String × String) (ik bk : ℕ × String) (player : String) :
    (h2hBowlRowOf key sdelv).wickets =
      wicketsNoRunOut (sdelv.filter (fun d =>
        d.bowler = key.1 && d.bowling_team = key.2.1 && d.batting_team = key.2.2)) ∧
    (inningsRowOf ik ds).wickets =
      countDismissed (ds.filter (fun d => d.innings = ik.1 && d.batting_team = ik.2)) ∧
    (topBowlerRowOf bk ds).wickets =
      countDismissed (ds.filter (fun d => d.innings = bk.1 && d.bowler = bk.2)) ∧
    (bowlingAggOf df player).wickets = countDismissed (df.filter (·.bowler = player)) ∧
    (∀ l : List Delivery, wicketsNoRunOut l + runOutDismissals l = countDismissed l) ∧
    wicketsNoRunOut [exRunOut] = 0 ∧ countDismissed [exRunOut] = 1 :=
  ⟨rfl, rfl, rfl, rfl,
   fun l => by
     have h := length_filter_partition l (·.player_dismissed.isSome) isRunOutKind
     rw [wicketsNoRunOut, runOutDismissals, countDismissed]
     omega,
   by decide, by decide⟩

end IPLAgent
